import Mathlib

/-!
Shallow embedding of the Handlebar rip/encode pipeline core
(`src/database.py`, `src/media_factory.py`).

Text is modelled as `List Char` (the program only manipulates ASCII
command/path/progress text).  The sqlite store is modelled as explicit
lists of rows; `datetime.now()` values are threaded in as an abstract
`Nat` tick.  Fallible Python code (raising) is modelled with `Option` /
explicit error components.
-/

namespace Handlebar

/-- Character-list strings, the text model used throughout. -/
abbrev Str := List Char

/-- Coerce a Lean string literal into the `List Char` text model. -/
def str (s : String) : Str := s.data

/-! ## `EncodeStatus` (database.py lines 15-23)

All recognized states that an encode job can be in, with the integer
values of the Python `IntEnum`. -/

/-- The `EncodeStatus` IntEnum from database.py. -/
inductive EncodeStatus where
  | Error
  | Stopped
  | Pending_Rip
  | Ripping
  | Pending_Encode
  | Encoding
  | Finished
deriving DecidableEq

/-- The integer value of each `EncodeStatus` member (database.py lines 17-23). -/
def EncodeStatus.val : EncodeStatus → Int
  | .Error => -1
  | .Stopped => 0
  | .Pending_Rip => 1
  | .Ripping => 2
  | .Pending_Encode => 3
  | .Encoding => 4
  | .Finished => 5

/-! ## `Media` (media_factory.py lines 25-130)

The fields a `Media` object carries after `__init__` (year and season
are assigned later by callers; they are `None`-able ints). -/

/-- The `Media` container class of media_factory.py (its data fields). -/
structure Media where
  handbrake_path : Str
  source_type : Str
  media_type : Str
  image_path : Str
  file_name : Str
  media_name : Str
  year : Option Int
  season : Option Int
deriving DecidableEq

/-- Whether the media's source is a drive (used throughout
media_factory.py as `source_type == 'drive'`). -/
def Media.isDrive (m : Media) : Bool := m.source_type = str "drive"

/-! ## The sqlite store (`EncodeDatabase`, database.py lines 26-156)

`media_table` rows are `(id, media, output_filepath, title_number,
encode_status, start_time)`; `media_lookup` rows are
`(media_filename UNIQUE, media_id)`.  The `id` column is an
autoincrement primary key, modelled by the `next_id` counter.  Rows are
kept in insertion order, which for these tables coincides with rowid
order — the order in which an unordered `SELECT` returns them. -/

/-- One row of `media_table` (database.py lines 56-58). -/
structure MediaRow where
  id : Nat
  media : Media
  output_filepath : Str
  title_number : Int
  encode_status : EncodeStatus
  start_time : Nat
deriving DecidableEq

/-- The committed contents of the sqlite database. -/
structure EncodeDatabase where
  media_table : List MediaRow
  media_lookup : List (Str × Nat)
  next_id : Nat
deriving DecidableEq

/-- The store-layer error surfaced by the UNIQUE index on
`media_lookup.media_filename` (an `sqlite3.IntegrityError`). -/
inductive DbError where
  | DuplicateKey
deriving DecidableEq

/-- `EncodeDatabase.add_entry` (database.py lines 71-85).

The first `INSERT` (into `media_table`) always succeeds inside the
open transaction; the second `INSERT` (into `media_lookup`) hits the
UNIQUE index on `media_filename` when an entry with the same file name
already exists and raises, so `connection.commit()` is never reached
and the committed store is unchanged.  The returned database is the
committed state after the call; the `Option DbError` is the raised
error, if any. -/
def EncodeDatabase.add_entry (db : EncodeDatabase) (media : Media)
    (output_filepath : Str) (title_number : Int) (encode_status : EncodeStatus)
    (now : Nat) : EncodeDatabase × Option DbError :=
  let row : MediaRow :=
    { id := db.next_id, media := media, output_filepath := output_filepath,
      title_number := title_number, encode_status := encode_status,
      start_time := now }
  let txn : EncodeDatabase :=
    { db with media_table := db.media_table ++ [row], next_id := db.next_id + 1 }
  if db.media_lookup.any (fun e => e.1 = media.file_name) then
    (db, some .DuplicateKey)
  else
    ({ txn with media_lookup := txn.media_lookup ++ [(media.file_name, row.id)] },
     none)

/-- `EncodeDatabase.get_with_status` (database.py lines 87-95):
`SELECT * FROM media_table WHERE encode_status=:status`, rows returned
in rowid (= insertion) order. -/
def EncodeDatabase.get_with_status (db : EncodeDatabase)
    (encode_status : EncodeStatus) : List MediaRow :=
  db.media_table.filter (fun r => r.encode_status = encode_status)

/-- `EncodeDatabase.set_status` (database.py lines 97-106): unconditional
`UPDATE media_table SET encode_status=:status, start_time=:start WHERE id=:row`. -/
def EncodeDatabase.set_status (db : EncodeDatabase) (row_id : Nat)
    (encode_status : EncodeStatus) (now : Nat) : EncodeDatabase :=
  { db with
    media_table := db.media_table.map (fun r =>
      if r.id = row_id then { r with encode_status := encode_status, start_time := now }
      else r) }

/-- `EncodeDatabase.update_media` (database.py lines 108-113):
`UPDATE media_table SET media=:updated WHERE id=:row` — only the media
column is written; `media_lookup` and every other column are untouched. -/
def EncodeDatabase.update_media (db : EncodeDatabase) (row_id : Nat)
    (updated_media : Media) : EncodeDatabase :=
  { db with
    media_table := db.media_table.map (fun r =>
      if r.id = row_id then { r with media := updated_media } else r) }

/-- `EncodeDatabase.get_with_name` (database.py lines 115-129):
`fetchone` on `media_lookup` by file name, then `fetchone` on
`media_table` by the found id. -/
def EncodeDatabase.get_with_name (db : EncodeDatabase)
    (media_filename : Str) : Option MediaRow :=
  match db.media_lookup.find? (fun e => e.1 = media_filename) with
  | none => none
  | some e => db.media_table.find? (fun r => r.id = e.2)

/-! ## `WorkQueue` (database.py lines 159-227) -/

/-- `WorkQueue.restart_incomplete_jobs` (database.py lines 186-194): the
list of jobs it surfaces (each is `print`ed).  It queries only
`Pending_Rip` and `Pending_Encode`. -/
def WorkQueue.restart_incomplete_jobs (db : EncodeDatabase) : List MediaRow :=
  db.get_with_status .Pending_Rip ++ db.get_with_status .Pending_Encode

/-- The store effect of `WorkQueue.enqueue` (database.py lines 209-218):
pick the initial status from `do_rip`, and insert only when
`get_with_name` finds nothing.  The `Option DbError` component is the
error propagating out of `add_entry`, if any (unreachable on a
well-formed store). -/
def WorkQueue.enqueue_store (db : EncodeDatabase) (media : Media)
    (output_filepath : Str) (title_number : Int) (do_rip : Bool)
    (now : Nat) : EncodeDatabase × Option DbError :=
  let new_status : EncodeStatus := if do_rip then .Pending_Rip else .Pending_Encode
  match db.get_with_name media.file_name with
  | some _ => (db, none)
  | none => db.add_entry media output_filepath title_number new_status now

/-! ## Worker claim steps (database.py lines 282-291 and 375-387)

`RipThread.get_work` and `EncodeThread.get_work` have the same shape:
fetch the rows in this stage's pending status; if none, clear the
stage's wake event and return `None`; otherwise claim the first row by
writing the in-progress status and return its first four columns.  The
wake event is modelled as a `Bool` (set = `true`). -/

/-- The work tuple `pending[0][:4] = (row_id, media, output_filepath, title_number)`. -/
structure WorkItem where
  row_id : Nat
  media : Media
  output_filepath : Str
  title_number : Int
deriving DecidableEq

/-- `RipThread.get_work` (database.py lines 282-291).  Returns the
claimed work (if any), the database after the claim write, and the new
value of the `rip_ready` event. -/
def RipThread.get_work (db : EncodeDatabase) (rip_ready : Bool)
    (now : Nat) : Option WorkItem × EncodeDatabase × Bool :=
  let pending := db.get_with_status .Pending_Rip
  match pending with
  | [] => (none, db, false)
  | w :: _ =>
    (some ⟨w.id, w.media, w.output_filepath, w.title_number⟩,
     db.set_status w.id .Ripping now, rip_ready)

/-- `EncodeThread.get_work` (database.py lines 375-387), same shape on
`Pending_Encode` / `Encoding` and the `encode_ready` event. -/
def EncodeThread.get_work (db : EncodeDatabase) (encode_ready : Bool)
    (now : Nat) : Option WorkItem × EncodeDatabase × Bool :=
  let pending := db.get_with_status .Pending_Encode
  match pending with
  | [] => (none, db, false)
  | w :: _ =>
    (some ⟨w.id, w.media, w.output_filepath, w.title_number⟩,
     db.set_status w.id .Encoding now, encode_ready)

/-! ## The encode progress relay (database.py lines 342-373)

`EncodeThread.encode` reads the external process's stdout one byte at a
time, accumulating a segment until a carriage return, then applies
`re.search(r'^Encoding: task \d+ of \d+, (\d+)\.\d+ %', segment)` and,
on a match, emits `int(group(1))` as a progress event.  With `^` and no
MULTILINE flag the pattern can only match at the start of the segment,
and every `\d+` is followed by a non-digit literal, so maximal-munch
digit runs implement the regex exactly. -/

/-- Split off the maximal leading run of ASCII digits. -/
def takeDigits : Str → Str × Str
  | [] => ([], [])
  | c :: cs =>
    if c.isDigit then
      let p := takeDigits cs
      (c :: p.1, p.2)
    else ([], c :: cs)

/-- Strip an exact literal from the front of the text, or fail. -/
def stripLit : Str → Str → Option Str
  | [], s => some s
  | _ :: _, [] => none
  | p :: ps, c :: cs => if c = p then stripLit ps cs else none

/-- `int` of a nonempty ASCII digit string (leading zeros allowed). -/
def digitsVal (d : Str) : Nat :=
  d.foldl (fun a c => a * 10 + (c.toNat - 48)) 0

/-- The anchored regex `^Encoding: task \d+ of \d+, (\d+)\.\d+ %`
applied to one carriage-return-delimited segment; returns the integer
value of the captured group on a match. -/
def matchEncoding (line : Str) : Option Nat :=
  match stripLit (str "Encoding: task ") line with
  | none => none
  | some r1 =>
    let p1 := takeDigits r1
    if p1.1 = [] then none else
    match stripLit (str " of ") p1.2 with
    | none => none
    | some r2 =>
      let p2 := takeDigits r2
      if p2.1 = [] then none else
      match stripLit (str ", ") p2.2 with
      | none => none
      | some r3 =>
        let g := takeDigits r3
        if g.1 = [] then none else
        match g.2 with
        | '.' :: r4 =>
          let p4 := takeDigits r4
          if p4.1 = [] then none else
          match stripLit (str " %") p4.2 with
          | none => none
          | some _ => some (digitsVal g.1)
        | _ => none

/-- The byte-at-a-time reader loop of `EncodeThread.encode` (database.py
lines 352-363): collect characters into `line` until a `'\r'`, then
match the completed segment and emit its percentage if it has one.
Characters after the last carriage return are never processed. -/
def parseProgress : Str → Str → List Nat
  | [], _line => []
  | c :: rest, line =>
    if c = '\r' then
      (match matchEncoding (line ++ [c]) with
       | some v => [v]
       | none => []) ++ parseProgress rest []
    else parseProgress rest (line ++ [c])

/-- All progress events `EncodeThread.encode` emits for a given stdout
byte stream (when a display is registered). -/
def EncodeThread.encode_events (stream : Str) : List Nat :=
  parseProgress stream []

/-! ## The rip-side progress wrapper (media_factory.py lines 202-215)

`ProgressWrapper.flush` applies `re.search(r' (\d{1,3})%$', self.text)`
and immediately calls `.group(1)` on the result.  `re.search` scans for
the leftmost position where the pattern matches; `\d{1,3}` is greedy
(try three digits, then two, then one); `$` matches at the end of the
text or just before a trailing newline. -/

/-- The regex `$` anchor: end of text, or a sole trailing `'\n'`. -/
def dollarEnd : Str → Bool
  | [] => true
  | ['\n'] => true
  | _ => false

/-- Try to match exactly `k` digits, then `'%'`, then `$`. -/
def ripTry (s : Str) (k : Nat) : Option Nat :=
  let d := s.take k
  if d.length = k && d.all (fun c => c.isDigit) then
    match s.drop k with
    | '%' :: r => if dollarEnd r then some (digitsVal d) else none
    | _ => none
  else none

/-- Match ` (\d{1,3})%$` at the current position (greedy digit count). -/
def ripMatchAt : Str → Option Nat
  | ' ' :: rest =>
    (match ripTry rest 3 with
     | some v => some v
     | none =>
       match ripTry rest 2 with
       | some v => some v
       | none => ripTry rest 1)
  | _ => none

/-- `re.search(r' (\d{1,3})%$', text)`: leftmost match, if any. -/
def ripSearch : Str → Option Nat
  | [] => none
  | c :: rest =>
    match ripMatchAt (c :: rest) with
    | some v => some v
    | none => ripSearch rest

/-- The mutable state of a `ProgressWrapper` (media_factory.py lines
202-206); `has_callback` records whether a callback was registered. -/
structure ProgressWrapper where
  percent : Nat
  text : Str
  has_callback : Bool
deriving DecidableEq

/-- `ProgressWrapper.write` (media_factory.py lines 208-209). -/
def ProgressWrapper.write (w : ProgressWrapper) (t : Str) : ProgressWrapper :=
  { w with text := w.text ++ t }

/-- `ProgressWrapper.flush` (media_factory.py lines 211-215).  When the
accumulated text has no match, `re.search` returns `None` and the
immediate `.group(1)` raises `AttributeError` — modelled as `none`.
Otherwise the new wrapper state is returned together with the list of
values passed to the callback. -/
def ProgressWrapper.flush (w : ProgressWrapper) : Option (ProgressWrapper × List Nat) :=
  match ripSearch w.text with
  | none => none
  | some p =>
    some ({ w with percent := p, text := [] },
          if w.has_callback then [p] else [])

/-! ## Worker loop iterations (database.py lines 242-280 and 305-340) -/

/-- Outcome of the external rip operation `DVDHandler.save_to_file`
(media_factory.py lines 170-181): it either returns, or raises an
I/O-class exception. -/
inductive RipResult where
  | ok
  | ioError
deriving DecidableEq

/-- One iteration of `RipThread.run` (database.py lines 242-280) after a
successful claim of `work`.  There is no try/except around
`DVDHandler.save_to_file`, so a raised exception propagates out of
`run` and the worker thread exits — modelled as `Except.error`.  On
success the media column is replaced by `ripped_media` (the result of
`MediaFactory.read_media_from_file` on the temp file, with `media_type`
and `media_name` copied over), the status is set to `Pending_Encode`,
and `encode_ready` is set (the returned `Bool`). -/
def RipThread.run_iter (db : EncodeDatabase) (work : WorkItem)
    (save_result : RipResult) (ripped_media : Media) (now : Nat) :
    Except Unit (EncodeDatabase × Bool) :=
  match save_result with
  | .ioError => .error ()
  | .ok =>
    .ok ((db.update_media work.row_id ripped_media).set_status
            work.row_id .Pending_Encode now,
         true)

/-- `EncodeThread.encode` (database.py lines 342-373), given the child
process's stdout and exit status.  `subprocess.Popen` + `wait()` return
the exit status without raising for an abnormal exit, so `encode`
raises no `CalledProcessError`; after `wait()` it emits progress 100
and display status `Finished` whenever a display is registered,
regardless of the exit status.  Returns (progress events, display
status events). -/
def EncodeThread.encode (stream : Str) (_exit_code : Int) (display : Bool) :
    List Nat × List EncodeStatus :=
  if display then
    (EncodeThread.encode_events stream ++ [100], [.Finished])
  else ([], [])

/-- One iteration of `EncodeThread.run` (database.py lines 305-340)
after a successful claim of `work`.  Since `EncodeThread.encode` never
raises `CalledProcessError`, the `except` branch (lines 332-335) is
unreachable, and the iteration unconditionally commits status
`Finished` for the claimed row — for failing exit statuses as well. -/
def EncodeThread.run_iter (db : EncodeDatabase) (work : WorkItem)
    (_stream : Str) (_exit_code : Int) (now : Nat) : EncodeDatabase :=
  db.set_status work.row_id .Finished now

/-! ## Store well-formedness and basic lemmas -/

/-- Primary-key sanity maintained by the program: rowids are distinct
and below the autoincrement counter. -/
def EncodeDatabase.wfIds (db : EncodeDatabase) : Prop :=
  (db.media_table.map (fun r => r.id)).Nodup ∧
    ∀ r ∈ db.media_table, r.id < db.next_id

/-- Full store well-formedness: primary keys, the UNIQUE index on
`media_lookup.media_filename`, and every lookup entry pointing at an
existing `media_table` row. -/
def EncodeDatabase.wf (db : EncodeDatabase) : Prop :=
  db.wfIds ∧ (db.media_lookup.map (fun e => e.1)).Nodup ∧
    ∀ e ∈ db.media_lookup, ∃ r ∈ db.media_table, r.id = e.2

/-- Two rows of a table with distinct ids are equal once their ids agree. -/
lemma row_eq_of_id_eq {tbl : List MediaRow}
    (h : (tbl.map (fun r => r.id)).Nodup) {r1 r2 : MediaRow}
    (h1 : r1 ∈ tbl) (h2 : r2 ∈ tbl) (he : r1.id = r2.id) : r1 = r2 :=
  List.inj_on_of_nodup_map h h1 h2 he

/-- `find?` by id returns the (unique) member with that id. -/
lemma find?_id_of_nodup {tbl : List MediaRow}
    (h : (tbl.map (fun r => r.id)).Nodup) {r : MediaRow} (hr : r ∈ tbl) :
    tbl.find? (fun x => x.id = r.id) = some r := by
  have hsome : (tbl.find? (fun x => x.id = r.id)).isSome := by
    rw [List.find?_isSome]
    exact ⟨r, hr, by simp⟩
  obtain ⟨x, hx⟩ := Option.isSome_iff_exists.mp hsome
  have hxid : x.id = r.id := by simpa using List.find?_some hx
  have hxmem : x ∈ tbl := List.mem_of_find?_eq_some hx
  rw [hx, row_eq_of_id_eq h hxmem hr hxid]

/-- Under the UNIQUE file-name index, an entry with first component `n`
makes the filtered lookup list a singleton. -/
lemma filter_fst_length_one {l : List (Str × Nat)}
    (hn : (l.map (fun e => e.1)).Nodup) {n : Str} {e : Str × Nat}
    (he : e ∈ l) (he1 : e.1 = n) :
    (l.filter (fun x => x.1 = n)).length = 1 := by
  induction l with
  | nil => cases he
  | cons a l ih =>
    rw [List.map_cons, List.nodup_cons] at hn
    rcases List.mem_cons.mp he with rfl | hmem
    · have hnil : l.filter (fun x => x.1 = n) = [] := by
        rw [List.filter_eq_nil_iff]
        intro x hx
        simp only [decide_eq_true_eq]
        intro hxn
        exact hn.1 (he1 ▸ hxn ▸ List.mem_map_of_mem (fun e => e.1) hx)
      simp [List.filter_cons, he1, hnil]
    · have hmm : n ∈ List.map (fun e => e.1) l := by
        have h2 : e.1 ∈ List.map (fun e => e.1) l :=
          List.mem_map_of_mem (fun e => e.1) hmem
        rwa [he1] at h2
      have hne : ¬(a.1 = n) := fun han => hn.1 (han ▸ hmm)
      simp only [List.filter_cons, hne, decide_eq_true_eq, if_false, decide_eq_false,
        Bool.false_eq_true]
      exact ih hn.2 hmem

/-! ## Concrete sample data used by witnesses and counterexamples -/

/-- A sample file-sourced media object. -/
def sampleMedia : Media :=
  { handbrake_path := str "C:\\hb\\HandBrakeCLI.exe", source_type := str "file",
    media_type := str "movie", image_path := str "C:\\rips",
    file_name := str "a.iso", media_name := str "A", year := none, season := none }

/-- A second sample media object with a different identity. -/
def sampleMediaB : Media :=
  { sampleMedia with file_name := str "b.iso", media_name := str "B" }

/-- A third sample media object with a different identity. -/
def sampleMediaC : Media :=
  { sampleMedia with file_name := str "c.iso", media_name := str "C" }

/-- A store holding one row for `sampleMedia`, in `Error` status. -/
def sampleErrorRow : MediaRow :=
  { id := 0, media := sampleMedia, output_filepath := str "out.mkv",
    title_number := 1, encode_status := .Error, start_time := 0 }

/-- The one-row store around `sampleErrorRow`. -/
def sampleErrorDb : EncodeDatabase :=
  { media_table := [sampleErrorRow], media_lookup := [(str "a.iso", 0)], next_id := 1 }

/-! ## C8 — duplicate insert fails and commits nothing -/

/-- C8: if the store already holds a lookup entry for the media's file
name, `add_entry` raises `DuplicateKey` (the UNIQUE index on
`media_lookup.media_filename` fires before `commit`), and the committed
store is returned unchanged. -/
theorem C8_add_entry_duplicate_keeps_store (db : EncodeDatabase) (m : Media)
    (p : Str) (t : Int) (s : EncodeStatus) (now : Nat)
    (h : ∃ e ∈ db.media_lookup, e.1 = m.file_name) :
    db.add_entry m p t s now = (db, some .DuplicateKey) := by
  obtain ⟨e, he, hname⟩ := h
  have hany : db.media_lookup.any (fun e => e.1 = m.file_name) = true :=
    List.any_eq_true.mpr ⟨e, he, by simp [hname]⟩
  unfold EncodeDatabase.add_entry
  simp [hany]

/-- C8 witness: a concrete duplicate insert into `sampleErrorDb`. -/
theorem C8_add_entry_duplicate_witness :
    sampleErrorDb.add_entry sampleMedia (str "o2.mkv") 2 .Pending_Rip 7
      = (sampleErrorDb, some .DuplicateKey) :=
  C8_add_entry_duplicate_keeps_store sampleErrorDb sampleMedia (str "o2.mkv") 2
    .Pending_Rip 7 (by decide)

/-! ## C2 — what `restart_incomplete_jobs` surfaces

The claim says it surfaces every item with status below `Finished`.
The code queries only `Pending_Rip` and `Pending_Encode`
(database.py lines 190-191), so items in `Error`, `Stopped`, `Ripping`
or `Encoding` are not surfaced. -/

/-- C2 counterexample: `sampleErrorRow` has status `Error`, which is
below `Finished`, yet `restart_incomplete_jobs` surfaces nothing. -/
theorem C2_counterexample :
    sampleErrorRow ∈ sampleErrorDb.media_table ∧
    sampleErrorRow.encode_status.val < EncodeStatus.Finished.val ∧
    WorkQueue.restart_incomplete_jobs sampleErrorDb = [] := by
  refine ⟨by decide, by decide, by decide⟩

/-- C2 (amended): `restart_incomplete_jobs` surfaces exactly the items
whose current status is `Pending_Rip` or `Pending_Encode`. -/
theorem C2_restart_surfaces_exactly_pending (db : EncodeDatabase) (r : MediaRow) :
    r ∈ WorkQueue.restart_incomplete_jobs db ↔
      r ∈ db.media_table ∧
        (r.encode_status = .Pending_Rip ∨ r.encode_status = .Pending_Encode) := by
  unfold WorkQueue.restart_incomplete_jobs EncodeDatabase.get_with_status
  simp only [List.mem_append, List.mem_filter, decide_eq_true_eq]
  tauto

/-! ## C3 — enqueue is idempotent on the store -/

/-- On a well-formed store, a missing identity means the UNIQUE-index
probe in `add_entry` cannot fire. -/
lemma any_name_false_of_get_with_name_none {db : EncodeDatabase} {n : Str}
    (hwf : db.wf) (hname : db.get_with_name n = none) :
    db.media_lookup.any (fun e => e.1 = n) = false := by
  rw [Bool.eq_false_iff]
  intro hany
  obtain ⟨e, he, hp⟩ := List.any_eq_true.mp hany
  have hsome1 : (db.media_lookup.find? (fun x => x.1 = n)).isSome :=
    List.find?_isSome.mpr ⟨e, he, hp⟩
  obtain ⟨e2, he2⟩ := Option.isSome_iff_exists.mp hsome1
  obtain ⟨rr, hrr, hid⟩ := hwf.2.2 e2 (List.mem_of_find?_eq_some he2)
  have hsome2 : (db.media_table.find? (fun r => r.id = e2.2)).isSome :=
    List.find?_isSome.mpr ⟨rr, hrr, by simp [hid]⟩
  obtain ⟨r2, hr2⟩ := Option.isSome_iff_exists.mp hsome2
  unfold EncodeDatabase.get_with_name at hname
  rw [he2] at hname
  dsimp only at hname
  rw [hr2] at hname
  cases hname

/-- C3: enqueuing the same media identity a second time is a no-op on
the store — the resulting store is unchanged, no error escapes, there
is exactly one lookup entry for that identity, a row for it exists, and
`get_with_name` (hence its status) is unchanged by the second call,
whatever `do_rip` arguments the two calls used. -/
theorem C3_enqueue_idempotent (db : EncodeDatabase) (m : Media)
    (p1 p2 : Str) (t1 t2 : Int) (r1 r2 : Bool) (now1 now2 : Nat)
    (hwf : db.wf) :
    let first := WorkQueue.enqueue_store db m p1 t1 r1 now1
    let second := WorkQueue.enqueue_store first.1 m p2 t2 r2 now2
    second.1 = first.1 ∧ second.2 = none ∧
      (first.1.media_lookup.filter (fun e => e.1 = m.file_name)).length = 1 ∧
      (∃ row, first.1.get_with_name m.file_name = some row) ∧
      second.1.get_with_name m.file_name = first.1.get_with_name m.file_name := by
  dsimp only
  cases hname : db.get_with_name m.file_name with
  | some row =>
    have h1 : WorkQueue.enqueue_store db m p1 t1 r1 now1 = (db, none) := by
      unfold WorkQueue.enqueue_store
      rw [hname]
    rw [h1]
    have h2 : WorkQueue.enqueue_store db m p2 t2 r2 now2 = (db, none) := by
      unfold WorkQueue.enqueue_store
      rw [hname]
    rw [h2]
    refine ⟨rfl, rfl, ?_, ⟨row, hname⟩, rfl⟩
    have hf : ∃ e, db.media_lookup.find? (fun x => x.1 = m.file_name) = some e := by
      cases hfind : db.media_lookup.find? (fun x => x.1 = m.file_name) with
      | none =>
        unfold EncodeDatabase.get_with_name at hname
        rw [hfind] at hname
        cases hname
      | some e => exact ⟨e, rfl⟩
    obtain ⟨e, he⟩ := hf
    have hmem := List.mem_of_find?_eq_some he
    have hp : e.1 = m.file_name := by simpa using List.find?_some he
    exact filter_fst_length_one hwf.2.1 hmem hp
  | none =>
    have hany := any_name_false_of_get_with_name_none hwf hname
    have hfind0 : db.media_lookup.find? (fun x => x.1 = m.file_name) = none := by
      rw [List.find?_eq_none]
      intro x hx
      have := (List.any_eq_false.mp hany) x hx
      simpa using this
    set st1 : EncodeStatus := if r1 then .Pending_Rip else .Pending_Encode with hst1
    set row0 : MediaRow :=
      { id := db.next_id, media := m, output_filepath := p1,
        title_number := t1, encode_status := st1, start_time := now1 } with hrow0
    set db1 : EncodeDatabase :=
      { db with
        media_table := db.media_table ++ [row0],
        media_lookup := db.media_lookup ++ [(m.file_name, db.next_id)],
        next_id := db.next_id + 1 } with hdb1
    have h1 : WorkQueue.enqueue_store db m p1 t1 r1 now1 = (db1, none) := by
      unfold WorkQueue.enqueue_store EncodeDatabase.add_entry
      rw [hname]
      simp only [hany, Bool.false_eq_true, if_false, hdb1, hrow0, hst1]
    rw [h1]
    have hgwn : db1.get_with_name m.file_name = some row0 := by
      unfold EncodeDatabase.get_with_name
      have hfl : db1.media_lookup.find? (fun x => x.1 = m.file_name)
          = some (m.file_name, db.next_id) := by
        rw [hdb1]
        simp only [List.find?_append, hfind0, Option.none_or]
        simp
      rw [hfl]
      have hft : db1.media_table.find? (fun r => r.id = db.next_id) = some row0 := by
        rw [hdb1]
        simp only [List.find?_append]
        have hnone : db.media_table.find? (fun r => r.id = db.next_id) = none := by
          rw [List.find?_eq_none]
          intro r hr
          have := hwf.1.2 r hr
          simp only [decide_eq_true_eq]
          omega
        rw [hnone, Option.none_or]
        simp [hrow0]
      exact hft
    have h2 : WorkQueue.enqueue_store db1 m p2 t2 r2 now2 = (db1, none) := by
      unfold WorkQueue.enqueue_store
      rw [hgwn]
    rw [h2]
    refine ⟨rfl, rfl, ?_, ⟨row0, hgwn⟩, rfl⟩
    rw [hdb1]
    simp only [List.filter_append]
    have hfl0 : db.media_lookup.filter (fun e => e.1 = m.file_name) = [] := by
      rw [List.filter_eq_nil_iff]
      intro x hx
      have := (List.any_eq_false.mp hany) x hx
      simpa using this
    rw [hfl0]
    simp

/-- The empty, freshly constructed store (`construct_db`). -/
def emptyDb : EncodeDatabase := { media_table := [], media_lookup := [], next_id := 0 }

/-- C3 witness: two enqueues of `sampleMedia` into the fresh store. -/
theorem C3_enqueue_idempotent_witness :
    let first := WorkQueue.enqueue_store emptyDb sampleMedia (str "o.mkv") 1 true 1
    let second := WorkQueue.enqueue_store first.1 sampleMedia (str "o2.mkv") 2 false 2
    second.1 = first.1 ∧ second.2 = none ∧
      (first.1.media_lookup.filter (fun e => e.1 = sampleMedia.file_name)).length = 1 ∧
      (∃ row, first.1.get_with_name sampleMedia.file_name = some row) ∧
      second.1.get_with_name sampleMedia.file_name
        = first.1.get_with_name sampleMedia.file_name :=
  C3_enqueue_idempotent emptyDb sampleMedia (str "o.mkv") (str "o2.mkv") 1 2 true false 1 2
    (by simp [EncodeDatabase.wf, EncodeDatabase.wfIds, emptyDb])

/-! ## C5 — claim order and the empty-claim signal clear -/

/-- Writing status `s2` to row `rid` removes exactly the rows with id
`rid` from the `s`-status query (`s2 ≠ s`) and keeps the others in
order. -/
lemma filter_status_map_update (tbl : List MediaRow) (rid : Nat)
    (s2 s : EncodeStatus) (now : Nat) (hne : s2 ≠ s) :
    (tbl.map (fun r =>
        if r.id = rid then { r with encode_status := s2, start_time := now } else r)).filter
        (fun r => r.encode_status = s)
      = (tbl.filter (fun r => r.encode_status = s)).filter (fun r => !(r.id = rid)) := by
  induction tbl with
  | nil => rfl
  | cons x l ih =>
    by_cases hid : x.id = rid
    · by_cases hst : x.encode_status = s
      · simp [List.filter_cons, hid, hst, hne, ih]
      · simp [List.filter_cons, hid, hst, hne, ih]
    · by_cases hst : x.encode_status = s
      · simp [List.filter_cons, hid, hst, ih]
      · simp [List.filter_cons, hid, hst, ih]

/-- `get_with_status` after a claim write, at the store level. -/
lemma get_with_status_set_status (db : EncodeDatabase) (rid : Nat)
    (s2 s : EncodeStatus) (now : Nat) (hne : s2 ≠ s) :
    (db.set_status rid s2 now).get_with_status s
      = (db.get_with_status s).filter (fun r => !(r.id = rid)) :=
  filter_status_map_update db.media_table rid s2 s now hne

/-- C5: with three items pending in insertion order, a stage's claim
step returns the first, transitions exactly it to the in-progress
status (the rest remain pending, in order) and leaves the wake signal
alone; with nothing pending, it claims nothing and clears the wake
signal.  Both the rip and the encode claim steps are covered. -/
theorem C5_claim_order
    (db1 db2 db3 db4 : EncodeDatabase) (f1 f2 : Bool) (n1 n2 n3 n4 : Nat)
    (a b c d e g : MediaRow)
    (h1 : (db1.media_table.map (fun r => r.id)).Nodup)
    (hp1 : db1.get_with_status .Pending_Rip = [a, b, c])
    (h2 : (db2.media_table.map (fun r => r.id)).Nodup)
    (hp2 : db2.get_with_status .Pending_Encode = [d, e, g])
    (hp3 : db3.get_with_status .Pending_Rip = [])
    (hp4 : db4.get_with_status .Pending_Encode = []) :
    (RipThread.get_work db1 f1 n1).1
        = some ⟨a.id, a.media, a.output_filepath, a.title_number⟩ ∧
    { a with encode_status := .Ripping, start_time := n1 }
        ∈ (RipThread.get_work db1 f1 n1).2.1.media_table ∧
    (RipThread.get_work db1 f1 n1).2.1.get_with_status .Pending_Rip = [b, c] ∧
    (RipThread.get_work db1 f1 n1).2.2 = f1 ∧
    (EncodeThread.get_work db2 f2 n2).1
        = some ⟨d.id, d.media, d.output_filepath, d.title_number⟩ ∧
    { d with encode_status := .Encoding, start_time := n2 }
        ∈ (EncodeThread.get_work db2 f2 n2).2.1.media_table ∧
    (EncodeThread.get_work db2 f2 n2).2.1.get_with_status .Pending_Encode = [e, g] ∧
    (EncodeThread.get_work db2 f2 n2).2.2 = f2 ∧
    RipThread.get_work db3 true n3 = (none, db3, false) ∧
    EncodeThread.get_work db4 true n4 = (none, db4, false) := by
  have hids1 : ([a, b, c].map (fun r => r.id)).Nodup := by
    rw [← hp1]
    unfold EncodeDatabase.get_with_status
    exact List.Nodup.sublist
      (List.Sublist.map (fun r : MediaRow => r.id) (List.filter_sublist db1.media_table)) h1
  have hab : ¬(b.id = a.id) := by
    intro hex
    simp [List.nodup_cons, hex] at hids1
  have hac : ¬(c.id = a.id) := by
    intro hex
    simp [List.nodup_cons, hex] at hids1
  have hamem : a ∈ db1.media_table := by
    have : a ∈ db1.get_with_status .Pending_Rip := by rw [hp1]; exact List.mem_cons_self a _
    exact (List.mem_filter.mp this).1
  have hids2 : ([d, e, g].map (fun r => r.id)).Nodup := by
    rw [← hp2]
    unfold EncodeDatabase.get_with_status
    exact List.Nodup.sublist
      (List.Sublist.map (fun r : MediaRow => r.id) (List.filter_sublist db2.media_table)) h2
  have hde : ¬(e.id = d.id) := by
    intro hex
    simp [List.nodup_cons, hex] at hids2
  have hdg : ¬(g.id = d.id) := by
    intro hex
    simp [List.nodup_cons, hex] at hids2
  have hdmem : d ∈ db2.media_table := by
    have : d ∈ db2.get_with_status .Pending_Encode := by rw [hp2]; exact List.mem_cons_self d _
    exact (List.mem_filter.mp this).1
  refine ⟨?_, ?_, ?_, ?_, ?_, ?_, ?_, ?_, ?_, ?_⟩
  · unfold RipThread.get_work
    rw [hp1]
  · unfold RipThread.get_work
    rw [hp1]
    dsimp only [EncodeDatabase.set_status]
    exact List.mem_map.mpr ⟨a, hamem, by simp⟩
  · unfold RipThread.get_work
    rw [hp1]
    dsimp only
    rw [get_with_status_set_status db1 a.id .Ripping .Pending_Rip n1 (by decide), hp1]
    simp [List.filter_cons, hab, hac]
  · unfold RipThread.get_work
    rw [hp1]
  · unfold EncodeThread.get_work
    rw [hp2]
  · unfold EncodeThread.get_work
    rw [hp2]
    dsimp only [EncodeDatabase.set_status]
    exact List.mem_map.mpr ⟨d, hdmem, by simp⟩
  · unfold EncodeThread.get_work
    rw [hp2]
    dsimp only
    rw [get_with_status_set_status db2 d.id .Encoding .Pending_Encode n2 (by decide), hp2]
    simp [List.filter_cons, hde, hdg]
  · unfold EncodeThread.get_work
    rw [hp2]
  · unfold RipThread.get_work
    rw [hp3]
  · unfold EncodeThread.get_work
    rw [hp4]

/-- Row constructor for concrete witness stores. -/
def sampleRow (i : Nat) (m : Media) (s : EncodeStatus) : MediaRow :=
  { id := i, media := m, output_filepath := str "o.mkv", title_number := 1,
    encode_status := s, start_time := 0 }

/-- Three rip-pending rows, inserted in order A, B, C. -/
def ripQueueDb : EncodeDatabase :=
  { media_table := [sampleRow 0 sampleMedia .Pending_Rip,
      sampleRow 1 sampleMediaB .Pending_Rip, sampleRow 2 sampleMediaC .Pending_Rip],
    media_lookup := [(str "a.iso", 0), (str "b.iso", 1), (str "c.iso", 2)],
    next_id := 3 }

/-- Three encode-pending rows, inserted in order A, B, C. -/
def encodeQueueDb : EncodeDatabase :=
  { media_table := [sampleRow 0 sampleMedia .Pending_Encode,
      sampleRow 1 sampleMediaB .Pending_Encode, sampleRow 2 sampleMediaC .Pending_Encode],
    media_lookup := [(str "a.iso", 0), (str "b.iso", 1), (str "c.iso", 2)],
    next_id := 3 }

/-- C5 witness: concrete three-item queues and empty queues. -/
theorem C5_claim_order_witness :
    (RipThread.get_work ripQueueDb true 10).1
        = some ⟨(sampleRow 0 sampleMedia .Pending_Rip).id,
            (sampleRow 0 sampleMedia .Pending_Rip).media,
            (sampleRow 0 sampleMedia .Pending_Rip).output_filepath,
            (sampleRow 0 sampleMedia .Pending_Rip).title_number⟩ ∧
    { sampleRow 0 sampleMedia .Pending_Rip with
        encode_status := .Ripping, start_time := 10 }
        ∈ (RipThread.get_work ripQueueDb true 10).2.1.media_table ∧
    (RipThread.get_work ripQueueDb true 10).2.1.get_with_status .Pending_Rip
        = [sampleRow 1 sampleMediaB .Pending_Rip, sampleRow 2 sampleMediaC .Pending_Rip] ∧
    (RipThread.get_work ripQueueDb true 10).2.2 = true ∧
    (EncodeThread.get_work encodeQueueDb false 11).1
        = some ⟨(sampleRow 0 sampleMedia .Pending_Encode).id,
            (sampleRow 0 sampleMedia .Pending_Encode).media,
            (sampleRow 0 sampleMedia .Pending_Encode).output_filepath,
            (sampleRow 0 sampleMedia .Pending_Encode).title_number⟩ ∧
    { sampleRow 0 sampleMedia .Pending_Encode with
        encode_status := .Encoding, start_time := 11 }
        ∈ (EncodeThread.get_work encodeQueueDb false 11).2.1.media_table ∧
    (EncodeThread.get_work encodeQueueDb false 11).2.1.get_with_status .Pending_Encode
        = [sampleRow 1 sampleMediaB .Pending_Encode,
           sampleRow 2 sampleMediaC .Pending_Encode] ∧
    (EncodeThread.get_work encodeQueueDb false 11).2.2 = false ∧
    RipThread.get_work emptyDb true 12 = (none, emptyDb, false) ∧
    EncodeThread.get_work emptyDb true 13 = (none, emptyDb, false) :=
  C5_claim_order ripQueueDb encodeQueueDb emptyDb emptyDb true false 10 11 12 13
    (sampleRow 0 sampleMedia .Pending_Rip) (sampleRow 1 sampleMediaB .Pending_Rip)
    (sampleRow 2 sampleMediaC .Pending_Rip) (sampleRow 0 sampleMedia .Pending_Encode)
    (sampleRow 1 sampleMediaB .Pending_Encode) (sampleRow 2 sampleMediaC .Pending_Encode)
    (by decide) (by decide) (by decide) (by decide) (by decide) (by decide)

/-! ## C9 — `update_media` touches only the media column -/

/-- After mapping the media update over the table, `find?` by the
updated id returns the updated row. -/
lemma find?_id_map_update (tbl : List MediaRow) (rid : Nat) (m2 : Media)
    (hn : (tbl.map (fun x => x.id)).Nodup) {r : MediaRow}
    (hr : r ∈ tbl) (hrid : r.id = rid) :
    (tbl.map (fun x => if x.id = rid then { x with media := m2 } else x)).find?
        (fun x => x.id = rid) = some { r with media := m2 } := by
  set upd : MediaRow → MediaRow :=
    fun x => if x.id = rid then { x with media := m2 } else x with hupd
  have hid : ∀ x : MediaRow, (upd x).id = x.id := by
    intro x
    rw [hupd]
    by_cases h : x.id = rid
    · simp [h]
    · simp [h]
  have hn2 : ((tbl.map upd).map (fun x => x.id)).Nodup := by
    rw [List.map_map]
    have : ((fun x : MediaRow => x.id) ∘ upd) = fun x : MediaRow => x.id := by
      funext x
      exact hid x
    rw [this]
    exact hn
  have hmem : { r with media := m2 } ∈ tbl.map upd :=
    List.mem_map.mpr ⟨r, hr, by rw [hupd]; simp [hrid]⟩
  have hfind := find?_id_of_nodup hn2 hmem
  rw [← hrid]
  exact hfind

/-- C9: `update_media` replaces only the media descriptor of the row
with the given id: the lookup table and counter are untouched, the
updated row keeps its id, output path, title number, status and
timestamp, every other row is unchanged, and `get_with_name` on the
item's original file name still finds the (updated) row, so duplicate
detection against the original identity still succeeds. -/
theorem C9_update_media_frame (db : EncodeDatabase) (rid : Nat) (m2 : Media)
    (r : MediaRow) (f : Str)
    (hids : (db.media_table.map (fun x => x.id)).Nodup)
    (hr : r ∈ db.media_table) (hrid : r.id = rid)
    (hlk : db.media_lookup.find? (fun e => e.1 = f) = some (f, rid)) :
    (db.update_media rid m2).media_lookup = db.media_lookup ∧
    (db.update_media rid m2).next_id = db.next_id ∧
    { r with media := m2 } ∈ (db.update_media rid m2).media_table ∧
    (∀ x ∈ db.media_table, x.id ≠ rid → x ∈ (db.update_media rid m2).media_table) ∧
    (db.update_media rid m2).get_with_name f = some { r with media := m2 } := by
  refine ⟨rfl, rfl, ?_, ?_, ?_⟩
  · exact List.mem_map.mpr ⟨r, hr, by simp [hrid]⟩
  · intro x hx hne
    exact List.mem_map.mpr ⟨x, hx, by simp [hne]⟩
  · unfold EncodeDatabase.get_with_name EncodeDatabase.update_media
    rw [hlk]
    exact find?_id_map_update db.media_table rid m2 hids hr hrid

/-- C9 witness: replacing the media of the only row of `sampleErrorDb`. -/
theorem C9_update_media_frame_witness :
    (sampleErrorDb.update_media 0 sampleMediaB).media_lookup
        = sampleErrorDb.media_lookup ∧
    (sampleErrorDb.update_media 0 sampleMediaB).next_id = sampleErrorDb.next_id ∧
    { sampleErrorRow with media := sampleMediaB }
        ∈ (sampleErrorDb.update_media 0 sampleMediaB).media_table ∧
    (∀ x ∈ sampleErrorDb.media_table, x.id ≠ 0 →
        x ∈ (sampleErrorDb.update_media 0 sampleMediaB).media_table) ∧
    (sampleErrorDb.update_media 0 sampleMediaB).get_with_name (str "a.iso")
        = some { sampleErrorRow with media := sampleMediaB } :=
  C9_update_media_frame sampleErrorDb 0 sampleMediaB sampleErrorRow (str "a.iso")
    (by decide) (by decide) (by decide) (by decide)

/-! ## C6 — the progress-relay scenario -/

/-- C6: feeding the encode progress relay
`b"Encoding: task 1 of 1, 42.0 %\r"` yields exactly one progress event,
with value 42; feeding `b"garbage\r"` yields none. -/
theorem C6_progress_relay_scenario :
    EncodeThread.encode_events (str "Encoding: task 1 of 1, 42.0 %\r") = [42] ∧
    EncodeThread.encode_events (str "garbage\r") = [] := by
  exact ⟨by decide, by decide⟩

/-! ## C7 — non-matching progress segments

The encode-side relay checks `if match:` and silently skips segments
without a percentage.  The rip-side `ProgressWrapper.flush`, however,
calls `.group(1)` directly on the `re.search` result, so a
non-matching accumulated text raises `AttributeError` instead of being
discarded. -/

/-- A single carriage-return-terminated segment produces exactly the
match result of that segment. -/
lemma parseProgress_single_segment (s : Str) (acc : Str) (h : '\r' ∉ s) :
    parseProgress (s ++ ['\r']) acc
      = (match matchEncoding ((acc ++ s) ++ ['\r']) with
         | some v => [v]
         | none => []) := by
  induction s generalizing acc with
  | nil =>
    show parseProgress ['\r'] acc = _
    unfold parseProgress
    simp [parseProgress]
  | cons c cs ih =>
    have hc : ¬(c = '\r') := fun h2 => h (h2 ▸ List.mem_cons_self c cs)
    have hcs : '\r' ∉ cs := fun h2 => h (List.mem_cons_of_mem c h2)
    show parseProgress (c :: (cs ++ ['\r'])) acc = _
    unfold parseProgress
    simp only [hc, if_false]
    rw [ih (acc ++ [c]) hcs]
    have hassoc : (acc ++ [c]) ++ cs = acc ++ (c :: cs) := by
      rw [List.append_assoc]
      rfl
    rw [hassoc]

/-- C7 counterexample: the rip-side wrapper flushed with `"garbage"`
finds no match and `.group(1)` raises (modelled as `none`) — contrary
to the claim that both relays silently discard non-matching segments. -/
theorem C7_counterexample :
    ProgressWrapper.flush { percent := 0, text := str "garbage", has_callback := true }
      = none := by
  decide

/-- C7 (amended): the carriage-return-delimited encode relay silently
discards a non-matching segment (no event, no error), while the
rip-side wrapper's `flush` raises on text with no percentage match (and
invokes no callback) — modelled by `flush` returning `none`. -/
theorem C7_nonmatching_segments :
    (∀ s : Str, '\r' ∉ s → matchEncoding (s ++ ['\r']) = none →
        EncodeThread.encode_events (s ++ ['\r']) = []) ∧
    (∀ w : ProgressWrapper, ripSearch w.text = none →
        ProgressWrapper.flush w = none) := by
  constructor
  · intro s hs hm
    unfold EncodeThread.encode_events
    rw [parseProgress_single_segment s [] hs]
    simp [hm]
  · intro w hw
    unfold ProgressWrapper.flush
    rw [hw]

/-- C7 witness: the two amended branches at concrete inputs. -/
theorem C7_nonmatching_segments_witness :
    EncodeThread.encode_events (str "Encoding: task one\r") = [] ∧
    ProgressWrapper.flush { percent := 3, text := str "task one", has_callback := true }
      = none :=
  ⟨C7_nonmatching_segments.1 (str "Encoding: task one") (by decide) (by decide),
   C7_nonmatching_segments.2 _ (by decide)⟩

/-! ## C1 — what a worker records when the external operation fails

The claim (and the spec) say a failed rip or encode is recorded as
status `Error` in the store, the failure is contained, and the worker
loops on.  In the code: `EncodeThread.encode` uses `Popen` + `wait()`,
which never raises `CalledProcessError`, so the `except` branch is
dead; the iteration falls through to `set_status(..., Finished)`
regardless of the exit status (contradicting its own
`print('Encode Failed!')` handler and the comment at database.py lines
368-370).  `RipThread.run` has no handler at all, so a raising
`DVDHandler.save_to_file` kills the worker thread, and nothing is
recorded. -/

/-- C1 (code divergence): after an encode iteration the claimed row is
always `Finished` — for a failing exit status as well, never `Error` —
and a failing rip propagates its exception out of the worker loop
instead of recording `Error`. -/
theorem C1_worker_failure_divergence (db : EncodeDatabase) (w w2 : WorkItem)
    (stream : Str) (exit_code : Int) (now n2 : Nat) (ripped : Media) :
    (∀ r ∈ (EncodeThread.run_iter db w stream exit_code now).media_table,
        r.id = w.row_id → r.encode_status = .Finished) ∧
    RipThread.run_iter db w2 .ioError ripped n2 = .error () := by
  constructor
  · intro r hr hid
    unfold EncodeThread.run_iter EncodeDatabase.set_status at hr
    obtain ⟨x, hx, hmap⟩ := List.mem_map.mp hr
    by_cases h : x.id = w.row_id
    · rw [← hmap]
      simp [h]
    · rw [← hmap] at hid
      simp [h] at hid
  · rfl

/-- A one-row store whose item is currently being encoded. -/
def sampleEncodingDb : EncodeDatabase :=
  { media_table := [sampleRow 0 sampleMedia .Encoding],
    media_lookup := [(str "a.iso", 0)], next_id := 1 }

/-- C1 witness: a HandBrake exit status of 1 still ends with the row
`Finished`, and a failing rip surfaces the raised exception. -/
theorem C1_worker_failure_divergence_witness :
    (∀ r ∈ (EncodeThread.run_iter sampleEncodingDb ⟨0, sampleMedia, str "o.mkv", 1⟩
        (str "") 1 9).media_table, r.id = 0 → r.encode_status = .Finished) ∧
    RipThread.run_iter sampleEncodingDb ⟨0, sampleMedia, str "o.mkv", 1⟩ .ioError
        sampleMediaB 9 = .error () :=
  C1_worker_failure_divergence sampleEncodingDb ⟨0, sampleMedia, str "o.mkv", 1⟩
    ⟨0, sampleMedia, str "o.mkv", 1⟩ (str "") 1 9 9 sampleMediaB

/-! ## C4 — statuses only move forward

The store is written by: `enqueue` (inserts a new row), the two claim
steps (pending → in-progress on the first pending row), the rip
recording step (media replacement plus Ripping → Pending_Encode on the
row the rip worker claimed) and the encode recording step (→ Finished
on the row the encode worker claimed).  Each stage has exactly one
worker, and a worker records only on the row id it claimed, so the
pipeline state is the store plus the row id each worker currently
holds.  The wake events only decide *when* steps may run, never *what*
they write, so dropping them only adds interleavings; safety over this
step relation covers every schedule of the program. -/

/-- The store plus the row each stage worker holds between its claim
and its recording write. -/
structure SystemState where
  db : EncodeDatabase
  rip_hold : Option Nat
  encode_hold : Option Nat

/-- One store-writing step of the pipeline (database.py lines 209-227,
242-291, 305-340, 375-387). -/
inductive Step : SystemState → SystemState → Prop where
  | enqueue (σ : SystemState) (m : Media) (p : Str) (t : Int) (dr : Bool) (now : Nat) :
      Step σ { db := (WorkQueue.enqueue_store σ.db m p t dr now).1,
               rip_hold := σ.rip_hold, encode_hold := σ.encode_hold }
  | rip_claim (σ : SystemState) (now : Nat) (h : σ.rip_hold = none) :
      Step σ { db := (RipThread.get_work σ.db true now).2.1,
               rip_hold := Option.map WorkItem.row_id (RipThread.get_work σ.db true now).1,
               encode_hold := σ.encode_hold }
  | rip_record (σ : SystemState) (w : WorkItem) (m2 : Media) (now : Nat)
      (db2 : EncodeDatabase) (ev : Bool)
      (hold : σ.rip_hold = some w.row_id)
      (hrun : RipThread.run_iter σ.db w .ok m2 now = .ok (db2, ev)) :
      Step σ { db := db2, rip_hold := none, encode_hold := σ.encode_hold }
  | encode_claim (σ : SystemState) (now : Nat) (h : σ.encode_hold = none) :
      Step σ { db := (EncodeThread.get_work σ.db true now).2.1,
               rip_hold := σ.rip_hold,
               encode_hold := Option.map WorkItem.row_id (EncodeThread.get_work σ.db true now).1 }
  | encode_record (σ : SystemState) (w : WorkItem) (stream : Str) (code : Int) (now : Nat)
      (hold : σ.encode_hold = some w.row_id) :
      Step σ { db := EncodeThread.run_iter σ.db w stream code now,
               rip_hold := σ.rip_hold, encode_hold := none }

/-- States reachable from a startup state: any store with sane primary
keys (fresh, or left by a previous run), both workers idle. -/
inductive Reachable : SystemState → Prop where
  | init (db : EncodeDatabase) (h : db.wfIds) :
      Reachable { db := db, rip_hold := none, encode_hold := none }
  | step (σ σ2 : SystemState) (h : Reachable σ) (hs : Step σ σ2) : Reachable σ2

/-- A worker's held row id is a live id whose rows all carry the
stage's in-progress status. -/
def holdStatus (db : EncodeDatabase) (hold : Option Nat) (s : EncodeStatus) : Prop :=
  ∀ rid, hold = some rid → rid < db.next_id ∧
    ∀ r ∈ db.media_table, r.id = rid → r.encode_status = s

/-- The pipeline invariant. -/
def Inv (σ : SystemState) : Prop :=
  σ.db.wfIds ∧ holdStatus σ.db σ.rip_hold .Ripping ∧
    holdStatus σ.db σ.encode_hold .Encoding

/-- Mapping an id-preserving row update keeps `wfIds`. -/
lemma wfIds_map (db : EncodeDatabase) (f : MediaRow → MediaRow)
    (hf : ∀ x, (f x).id = x.id) (h : db.wfIds) :
    EncodeDatabase.wfIds { db with media_table := db.media_table.map f } := by
  constructor
  · have heq : (db.media_table.map f).map (fun r => r.id)
        = db.media_table.map (fun r => r.id) := by
      rw [List.map_map]
      exact List.map_congr_left (fun x _ => hf x)
    simpa [heq] using h.1
  · intro r hr
    obtain ⟨x, hx, hmap⟩ := List.mem_map.mp hr
    have := h.2 x hx
    simpa [← hmap, hf x] using this

/-- Mapping an id-preserving, status-respecting row update keeps a
worker's hold invariant. -/
lemma holdStatus_map (db : EncodeDatabase) (hold : Option Nat) (s : EncodeStatus)
    (f : MediaRow → MediaRow) (hf : ∀ x, (f x).id = x.id)
    (h : holdStatus db hold s)
    (hstat : ∀ rid, hold = some rid → ∀ x ∈ db.media_table, x.id = rid →
        (f x).encode_status = x.encode_status) :
    holdStatus { db with media_table := db.media_table.map f } hold s := by
  intro rid hrid
  refine ⟨(h rid hrid).1, ?_⟩
  intro r hr hid
  obtain ⟨x, hx, hmap⟩ := List.mem_map.mp hr
  have hxid : x.id = rid := by rw [← hf x, hmap, hid]
  have := (h rid hrid).2 x hx hxid
  rw [← hmap, hstat rid hrid x hx hxid, this]

/-- The head of a status query is a member carrying that status. -/
lemma head_get_with_status {db : EncodeDatabase} {s : EncodeStatus}
    {w : MediaRow} {rest : List MediaRow}
    (h : db.get_with_status s = w :: rest) :
    w ∈ db.media_table ∧ w.encode_status = s := by
  have hw : w ∈ db.get_with_status s := by
    rw [h]
    exact List.mem_cons_self w rest
  unfold EncodeDatabase.get_with_status at hw
  have := List.mem_filter.mp hw
  exact ⟨this.1, by simpa using this.2⟩

/-- The two possible outcomes of `enqueue_store` on the store. -/
lemma enqueue_store_cases (db : EncodeDatabase) (m : Media) (p : Str)
    (t : Int) (dr : Bool) (now : Nat) :
    (WorkQueue.enqueue_store db m p t dr now).1 = db ∨
    (WorkQueue.enqueue_store db m p t dr now).1
      = { db with
          media_table := db.media_table ++
            [{ id := db.next_id, media := m, output_filepath := p,
               title_number := t,
               encode_status := if dr then .Pending_Rip else .Pending_Encode,
               start_time := now }],
          media_lookup := db.media_lookup ++ [(m.file_name, db.next_id)],
          next_id := db.next_id + 1 } := by
  unfold WorkQueue.enqueue_store EncodeDatabase.add_entry
  cases hname : db.get_with_name m.file_name with
  | some row => exact Or.inl rfl
  | none =>
    by_cases hany : db.media_lookup.any (fun e => e.1 = m.file_name) = true
    · simp [hany]
    · rw [Bool.not_eq_true] at hany
      simp [hany]

/-- Claim-step equation when the pending queue is empty. -/
lemma rip_get_work_nil {db : EncodeDatabase} {now : Nat}
    (hp : db.get_with_status .Pending_Rip = []) (flag : Bool) :
    RipThread.get_work db flag now = (none, db, false) := by
  unfold RipThread.get_work
  rw [hp]

/-- Claim-step equation when the pending queue starts with `w`. -/
lemma rip_get_work_cons {db : EncodeDatabase} {now : Nat} {w : MediaRow}
    {rest : List MediaRow}
    (hp : db.get_with_status .Pending_Rip = w :: rest) (flag : Bool) :
    RipThread.get_work db flag now
      = (some ⟨w.id, w.media, w.output_filepath, w.title_number⟩,
         db.set_status w.id .Ripping now, flag) := by
  unfold RipThread.get_work
  rw [hp]

/-- Claim-step equation when the pending queue is empty (encode). -/
lemma encode_get_work_nil {db : EncodeDatabase} {now : Nat}
    (hp : db.get_with_status .Pending_Encode = []) (flag : Bool) :
    EncodeThread.get_work db flag now = (none, db, false) := by
  unfold EncodeThread.get_work
  rw [hp]

/-- Claim-step equation when the pending queue starts with `w` (encode). -/
lemma encode_get_work_cons {db : EncodeDatabase} {now : Nat} {w : MediaRow}
    {rest : List MediaRow}
    (hp : db.get_with_status .Pending_Encode = w :: rest) (flag : Bool) :
    EncodeThread.get_work db flag now
      = (some ⟨w.id, w.media, w.output_filepath, w.title_number⟩,
         db.set_status w.id .Encoding now, flag) := by
  unfold EncodeThread.get_work
  rw [hp]

/-- `Option.map` computation rules (by `rfl`), used to reduce hold
updates. -/
lemma option_map_some {A B : Type} (f : A → B) (a : A) :
    Option.map f (some a) = some (f a) := rfl

/-- `Option.map` on `none` (by `rfl`). -/
lemma option_map_none {A B : Type} (f : A → B) :
    Option.map f (none : Option A) = none := rfl

/-- The pipeline invariant holds initially and is preserved by every
step. -/
lemma Inv_step {σ σ2 : SystemState} (hinv : Inv σ) (hs : Step σ σ2) : Inv σ2 := by
  obtain ⟨hwf, hrip, henc⟩ := hinv
  cases hs with
  | enqueue m p t dr now =>
    rcases enqueue_store_cases σ.db m p t dr now with hcase | hcase
    · exact ⟨by rw [hcase]; exact hwf,
        fun rid hrid => by rw [hcase]; exact hrip rid hrid,
        fun rid hrid => by rw [hcase]; exact henc rid hrid⟩
    · refine ⟨⟨?_, ?_⟩, ?_, ?_⟩
      · show ((WorkQueue.enqueue_store σ.db m p t dr now).1.media_table.map
            (fun r => r.id)).Nodup
        rw [hcase]
        simp only [List.map_append, List.map_cons, List.map_nil]
        rw [List.nodup_append]
        refine ⟨hwf.1, List.nodup_singleton _, ?_⟩
        intro i hi
        simp only [List.mem_singleton]
        obtain ⟨x, hx, hxi⟩ := List.mem_map.mp hi
        have := hwf.2 x hx
        omega
      · intro r hr
        rw [hcase] at hr ⊢
        rcases List.mem_append.mp hr with hr | hr
        · have := hwf.2 r hr
          simp only
          omega
        · simp only [List.mem_singleton] at hr
          subst hr
          simp
      · intro rid hrid
        have hold := hrip rid hrid
        rw [hcase]
        refine ⟨by simp only; omega, ?_⟩
        intro r hr hid
        rcases List.mem_append.mp hr with hr | hr
        · exact hold.2 r hr hid
        · simp only [List.mem_singleton] at hr
          subst hr
          simp only at hid
          omega
      · intro rid hrid
        have hold := henc rid hrid
        rw [hcase]
        refine ⟨by simp only; omega, ?_⟩
        intro r hr hid
        rcases List.mem_append.mp hr with hr | hr
        · exact hold.2 r hr hid
        · simp only [List.mem_singleton] at hr
          subst hr
          simp only at hid
          omega
  | rip_claim now h =>
    cases hp : σ.db.get_with_status .Pending_Rip with
    | nil =>
      simp only [rip_get_work_nil hp true, option_map_none]
      refine ⟨hwf, ?_, henc⟩
      intro rid hrid
      cases hrid
    | cons w rest =>
      obtain ⟨hwmem, hwst⟩ := head_get_with_status hp
      simp only [rip_get_work_cons hp true, option_map_some]
      refine ⟨?_, ?_, ?_⟩
      · exact wfIds_map σ.db _
          (fun x => by by_cases hx : x.id = w.id <;> simp [hx]) hwf
      · intro rid hrid
        simp only [Option.some.injEq] at hrid
        subst hrid
        refine ⟨hwf.2 w hwmem, ?_⟩
        intro r hr hid
        obtain ⟨x, hx, hmap⟩ := List.mem_map.mp hr
        by_cases hxid : x.id = w.id
        · rw [← hmap]
          simp [hxid]
        · exfalso
          apply hxid
          have : r.id = x.id := by
            rw [← hmap]
            by_cases hxi2 : x.id = w.id
            · simp [hxi2]
            · simp [hxi2]
          rw [← this]
          exact hid
      · refine holdStatus_map σ.db σ.encode_hold .Encoding _
          (fun x => by by_cases hx : x.id = w.id <;> simp [hx]) henc ?_
        intro rid2 hrid2 x hx hxid
        by_cases hxw : x.id = w.id
        · exfalso
          have hxw2 : x = w := row_eq_of_id_eq hwf.1 hx hwmem hxw
          have hxenc := (henc rid2 hrid2).2 x hx hxid
          rw [hxw2, hwst] at hxenc
          cases hxenc
        · simp [hxw]
  | rip_record w m2 now db2 ev hold hrun =>
    have hdb2 : db2
        = (σ.db.update_media w.row_id m2).set_status w.row_id .Pending_Encode now := by
      unfold RipThread.run_iter at hrun
      injection hrun with h2
      exact ((Prod.ext_iff.mp h2).1).symm
    subst hdb2
    have hRipInner : holdStatus (σ.db.update_media w.row_id m2) σ.rip_hold .Ripping :=
      holdStatus_map σ.db σ.rip_hold .Ripping _
        (fun x => by by_cases hx : x.id = w.row_id <;> simp [hx]) hrip
        (fun rid hrid x hx hxid => by
          by_cases hx2 : x.id = w.row_id <;> simp [hx2])
    have hEncInner : holdStatus (σ.db.update_media w.row_id m2) σ.encode_hold .Encoding :=
      holdStatus_map σ.db σ.encode_hold .Encoding _
        (fun x => by by_cases hx : x.id = w.row_id <;> simp [hx]) henc
        (fun rid hrid x hx hxid => by
          by_cases hx2 : x.id = w.row_id <;> simp [hx2])
    have hwfInner : (σ.db.update_media w.row_id m2).wfIds :=
      wfIds_map σ.db _ (fun x => by by_cases hx : x.id = w.row_id <;> simp [hx]) hwf
    refine ⟨?_, ?_, ?_⟩
    · exact wfIds_map _ _
        (fun x => by by_cases hx : x.id = w.row_id <;> simp [hx]) hwfInner
    · intro rid hrid
      cases hrid
    · refine holdStatus_map _ σ.encode_hold .Encoding _
        (fun x => by by_cases hx : x.id = w.row_id <;> simp [hx]) hEncInner ?_
      intro rid2 hrid2 x hx hxid
      by_cases hxw : x.id = w.row_id
      · exfalso
        have h1 := (hRipInner w.row_id hold).2 x hx hxw
        have h2 := (hEncInner rid2 hrid2).2 x hx hxid
        rw [h1] at h2
        cases h2
      · simp [hxw]
  | encode_claim now h =>
    cases hp : σ.db.get_with_status .Pending_Encode with
    | nil =>
      simp only [encode_get_work_nil hp true, option_map_none]
      refine ⟨hwf, hrip, ?_⟩
      intro rid hrid
      cases hrid
    | cons w rest =>
      obtain ⟨hwmem, hwst⟩ := head_get_with_status hp
      simp only [encode_get_work_cons hp true, option_map_some]
      refine ⟨?_, ?_, ?_⟩
      · exact wfIds_map σ.db _
          (fun x => by by_cases hx : x.id = w.id <;> simp [hx]) hwf
      · refine holdStatus_map σ.db σ.rip_hold .Ripping _
          (fun x => by by_cases hx : x.id = w.id <;> simp [hx]) hrip ?_
        intro rid2 hrid2 x hx hxid
        by_cases hxw : x.id = w.id
        · exfalso
          have hxw2 : x = w := row_eq_of_id_eq hwf.1 hx hwmem hxw
          have hxr := (hrip rid2 hrid2).2 x hx hxid
          rw [hxw2, hwst] at hxr
          cases hxr
        · simp [hxw]
      · intro rid hrid
        simp only [Option.some.injEq] at hrid
        subst hrid
        refine ⟨hwf.2 w hwmem, ?_⟩
        intro r hr hid
        obtain ⟨x, hx, hmap⟩ := List.mem_map.mp hr
        by_cases hxid : x.id = w.id
        · rw [← hmap]
          simp [hxid]
        · exfalso
          apply hxid
          have : r.id = x.id := by
            rw [← hmap]
            by_cases hxi2 : x.id = w.id
            · simp [hxi2]
            · simp [hxi2]
          rw [← this]
          exact hid
  | encode_record w stream code now hold =>
    refine ⟨?_, ?_, ?_⟩
    · exact wfIds_map σ.db _
        (fun x => by by_cases hx : x.id = w.row_id <;> simp [hx]) hwf
    · refine holdStatus_map σ.db σ.rip_hold .Ripping _
        (fun x => by by_cases hx : x.id = w.row_id <;> simp [hx]) hrip ?_
      intro rid2 hrid2 x hx hxid
      by_cases hxw : x.id = w.row_id
      · exfalso
        have h1 := (hrip rid2 hrid2).2 x hx hxid
        have h2 := (henc w.row_id hold).2 x hx hxw
        rw [h1] at h2
        cases h2
      · simp [hxw]
    · intro rid hrid
      cases hrid

/-- Every reachable state satisfies the invariant. -/
lemma Inv_reachable {σ : SystemState} (h : Reachable σ) : Inv σ := by
  induction h with
  | init db hdb =>
    refine ⟨hdb, ?_, ?_⟩
    all_goals
      intro rid hrid
      cases hrid
  | step σ σ2 hreach hs ih => exact Inv_step ih hs

/-- Status comparison across an id-targeted row update. -/
lemma status_le_map_update (tbl : List MediaRow)
    (hn : (tbl.map (fun r => r.id)).Nodup) (rid : Nat) (g : MediaRow → MediaRow)
    (hgid : ∀ x, (g x).id = x.id)
    (hother : ∀ x, ¬x.id = rid → g x = x)
    (hg : ∀ x ∈ tbl, x.id = rid → x.encode_status.val ≤ (g x).encode_status.val) :
    ∀ r ∈ tbl, ∀ r2 ∈ tbl.map g, r2.id = r.id →
      r.encode_status.val ≤ r2.encode_status.val := by
  intro r hr r2 hr2 hid
  obtain ⟨x, hx, hmap⟩ := List.mem_map.mp hr2
  have hxr : x = r := by
    apply row_eq_of_id_eq hn hx hr
    rw [← hgid x, hmap, hid]
  by_cases hxid : x.id = rid
  · rw [← hmap, ← hxr]
    exact hg x hx hxid
  · rw [← hmap, hother x hxid, hxr]

/-- C4: no reachable pipeline step writes a status below the row's
current one — every persisted status moves forward along the
Error(-1) < Stopped(0) < Pending-Rip(1) < Ripping(2) <
Pending-Encode(3) < Encoding(4) < Finished(5) ordering (or, as the
claim allows, jumps to Error; in fact no reachable step writes Error
to the store at all). -/
theorem C4_status_monotone (σ σ2 : SystemState)
    (hreach : Reachable σ) (hstep : Step σ σ2) :
    ∀ r ∈ σ.db.media_table, ∀ r2 ∈ σ2.db.media_table, r2.id = r.id →
      r.encode_status.val ≤ r2.encode_status.val ∨ r2.encode_status = .Error := by
  obtain ⟨hwf, hrip, henc⟩ := Inv_reachable hreach
  intro r hr r2 hr2 hid
  left
  cases hstep with
  | enqueue m p t dr now =>
    rcases enqueue_store_cases σ.db m p t dr now with hcase | hcase
    · rw [hcase] at hr2
      rw [row_eq_of_id_eq hwf.1 hr2 hr hid]
    · rw [hcase] at hr2
      rcases List.mem_append.mp hr2 with h2 | h2
      · rw [row_eq_of_id_eq hwf.1 h2 hr hid]
      · exfalso
        simp only [List.mem_singleton] at h2
        have hlt := hwf.2 r hr
        rw [h2] at hid
        simp only at hid
        omega
  | rip_claim now h =>
    cases hp : σ.db.get_with_status .Pending_Rip with
    | nil =>
      simp only [rip_get_work_nil hp true] at hr2
      rw [row_eq_of_id_eq hwf.1 hr2 hr hid]
    | cons w rest =>
      obtain ⟨hwmem, hwst⟩ := head_get_with_status hp
      simp only [rip_get_work_cons hp true] at hr2
      refine status_le_map_update σ.db.media_table hwf.1 w.id _
        (fun x => by by_cases hx : x.id = w.id <;> simp [hx])
        (fun x hx => by simp [hx]) ?_ r hr r2 hr2 hid
      intro x hx hxid
      have hxw : x = w := row_eq_of_id_eq hwf.1 hx hwmem hxid
      rw [hxw, hwst]
      simp [hxid, hxw, hwst, EncodeStatus.val]
  | rip_record w m2 now db2 ev hold hrun =>
    have hdb2 : db2
        = (σ.db.update_media w.row_id m2).set_status w.row_id .Pending_Encode now := by
      unfold RipThread.run_iter at hrun
      injection hrun with h2
      exact ((Prod.ext_iff.mp h2).1).symm
    subst hdb2
    have htbl : ((σ.db.update_media w.row_id m2).set_status
          w.row_id .Pending_Encode now).media_table
        = σ.db.media_table.map
            ((fun x => if x.id = w.row_id
                then { x with encode_status := .Pending_Encode, start_time := now }
                else x)
              ∘ (fun x => if x.id = w.row_id then { x with media := m2 } else x)) := by
      unfold EncodeDatabase.set_status EncodeDatabase.update_media
      simp only [List.map_map]
    rw [htbl] at hr2
    refine status_le_map_update σ.db.media_table hwf.1 w.row_id _ ?_ ?_ ?_ r hr r2 hr2 hid
    · intro x
      by_cases hx : x.id = w.row_id <;> simp [hx, Function.comp]
    · intro x hx
      simp [hx, Function.comp]
    · intro x hx hxid
      have hxst := (hrip w.row_id hold).2 x hx hxid
      simp only [Function.comp, hxid, if_true]
      rw [hxst]
      simp [EncodeStatus.val]
  | encode_claim now h =>
    cases hp : σ.db.get_with_status .Pending_Encode with
    | nil =>
      simp only [encode_get_work_nil hp true] at hr2
      rw [row_eq_of_id_eq hwf.1 hr2 hr hid]
    | cons w rest =>
      obtain ⟨hwmem, hwst⟩ := head_get_with_status hp
      simp only [encode_get_work_cons hp true] at hr2
      refine status_le_map_update σ.db.media_table hwf.1 w.id _
        (fun x => by by_cases hx : x.id = w.id <;> simp [hx])
        (fun x hx => by simp [hx]) ?_ r hr r2 hr2 hid
      intro x hx hxid
      have hxw : x = w := row_eq_of_id_eq hwf.1 hx hwmem hxid
      rw [hxw, hwst]
      simp [hxid, hxw, hwst, EncodeStatus.val]
  | encode_record w stream code now hold =>
    refine status_le_map_update σ.db.media_table hwf.1 w.row_id _
      (fun x => by by_cases hx : x.id = w.row_id <;> simp [hx])
      (fun x hx => by simp [hx]) ?_ r hr r2 hr2 hid
    intro x hx hxid
    have hxst := (henc w.row_id hold).2 x hx hxid
    rw [hxst]
    simp [hxid, EncodeStatus.val]

/-- C4 witness: one concrete reachable claim step over the three-item
rip queue, instantiated at the claimed head row. -/
theorem C4_status_monotone_witness :
    (sampleRow 0 sampleMedia .Pending_Rip) ∈ ripQueueDb.media_table ∧
    { sampleRow 0 sampleMedia .Ripping with start_time := 7 }
      ∈ (RipThread.get_work ripQueueDb true 7).2.1.media_table ∧
    ((sampleRow 0 sampleMedia .Pending_Rip).encode_status.val
        ≤ ({ sampleRow 0 sampleMedia .Ripping with start_time := 7 }).encode_status.val ∨
      ({ sampleRow 0 sampleMedia .Ripping with start_time := 7 }).encode_status = .Error) :=
  ⟨by decide, by decide,
    C4_status_monotone { db := ripQueueDb, rip_hold := none, encode_hold := none }
      { db := (RipThread.get_work ripQueueDb true 7).2.1,
        rip_hold := Option.map WorkItem.row_id (RipThread.get_work ripQueueDb true 7).1,
        encode_hold := none }
      (Reachable.init ripQueueDb
        (by constructor <;> simp [ripQueueDb, EncodeDatabase.wfIds, sampleRow]))
      (Step.rip_claim { db := ripQueueDb, rip_hold := none, encode_hold := none } 7 rfl)
      (sampleRow 0 sampleMedia .Pending_Rip) (by decide)
      { sampleRow 0 sampleMedia .Ripping with start_time := 7 } (by decide) (by decide)⟩

/-! ## Windows path functions (`ntpath`), as used by media_factory.py

The program runs `os.path` = `ntpath` (it drives Windows optical
drives).  `splitdrive`, `split`, `join`, `splitext` and `normpath` are
modelled below, faithfully to CPython's `ntpath`; `abspath` is modelled
by its documented pure fallback `normpath(join(cwd, path))` (the
process working directory is made an explicit parameter).  `sep` is
`'\\'`, `altsep` is `'/'`, and both count as separators. -/

/-- A path separator (`'\\'` or `'/'`). -/
def isSep (c : Char) : Bool := c = '\\' || c = '/'

/-- `path.replace(altsep, sep)`. -/
def replaceAltsep (s : Str) : Str := s.map (fun c => if c = '/' then '\\' else c)

/-- `s.lstrip('\\')` (only backslashes, as in `_format_paths`). -/
def lstripBackslash (s : Str) : Str := s.dropWhile (fun c => c = '\\')

/-- `s.rstrip(seps)` (both separators). -/
def rstripSeps (s : Str) : Str := (s.reverse.dropWhile (fun c => isSep c)).reverse

/-- ASCII `str.lower`, enough for drive-letter comparison. -/
def charLower (c : Char) : Char :=
  if 'A' ≤ c ∧ c ≤ 'Z' then Char.ofNat (c.toNat + 32) else c

/-- `s.lower()`. -/
def strLower (s : Str) : Str := s.map charLower

/-- `ntpath.splitdrive` (drive letter pairs and UNC `\\server\share`
prefixes). -/
def ntSplitdrive (p : Str) : Str × Str :=
  if p.length ≥ 2 then
    let normp := replaceAltsep p
    if normp.take 2 = ['\\', '\\'] && decide ((normp.drop 2).take 1 ≠ ['\\']) then
      match (normp.drop 2).findIdx? (fun c => c = '\\') with
      | none => ([], p)
      | some i =>
        let index := i + 2
        match (normp.drop (index + 1)).findIdx? (fun c => c = '\\') with
        | some j =>
          if j = 0 then ([], p)
          else (p.take (index + 1 + j), p.drop (index + 1 + j))
        | none => (p, [])
    else if (normp.drop 1).take 1 = [':'] then (p.take 2, p.drop 2)
    else ([], p)
  else ([], p)

/-- `ntpath.isabs`. -/
def ntIsAbs (p : Str) : Bool :=
  match (ntSplitdrive p).2 with
  | c :: _ => isSep c
  | [] => false

/-- The relative-append step of `ntpath.join`: add a separator unless
the accumulated path is empty or already ends in one. -/
def relAppend (rp pp : Str) : Str :=
  match rp.getLast? with
  | none => pp
  | some c => if isSep c then rp ++ pp else rp ++ '\\' :: pp

/-- `ntpath.join` with one extra component (the only arity the program
uses). -/
def ntJoin (a b : Str) : Str :=
  let rd := (ntSplitdrive a).1
  let rp := (ntSplitdrive a).2
  let pd := (ntSplitdrive b).1
  let pp := (ntSplitdrive b).2
  let absCase : Bool := match pp.head? with | some c => isSep c | none => false
  let step : Str × Str :=
    if absCase then
      (if pd ≠ [] ∨ rd = [] then pd else rd, pp)
    else if pd ≠ [] ∧ pd ≠ rd then
      (if strLower pd ≠ strLower rd then (pd, pp) else (pd, relAppend rp pp))
    else (rd, relAppend rp pp)
  let rd2 := step.1
  let rp2 := step.2
  let needSep : Bool :=
    (match rp2.head? with | some c => !(isSep c) | none => false) &&
      !rd2.isEmpty && decide (rd2.getLast? ≠ some ':')
  if needSep then rd2 ++ '\\' :: rp2 else rd2 ++ rp2

/-- `ntpath.split`: split off everything after the last separator of
the drive-free part; the head keeps the root separators but is
otherwise stripped of trailing separators. -/
def ntSplit (p : Str) : Str × Str :=
  let d := (ntSplitdrive p).1
  let r := (ntSplitdrive p).2
  let tail := (r.reverse.takeWhile (fun c => !(isSep c))).reverse
  let head := (r.reverse.dropWhile (fun c => !(isSep c))).reverse
  let stripped := rstripSeps head
  (d ++ (if stripped = [] then head else stripped), tail)

/-- `ntpath.splitext`: split off the extension at the last dot of the
base name, unless every character before it is itself a dot. -/
def ntSplitext (p : Str) : Str × Str :=
  let revBase := (p.reverse.takeWhile (fun c => !(isSep c)))
  let h := (p.reverse.dropWhile (fun c => !(isSep c))).reverse
  let afterRev := revBase.takeWhile (fun c => !(c = '.'))
  match revBase.dropWhile (fun c => !(c = '.')) with
  | [] => (p, [])
  | _dot :: beforeRev =>
    if (beforeRev.reverse).all (fun c => c = '.') then (p, [])
    else (h ++ beforeRev.reverse, '.' :: afterRev.reverse)

/-- `s.split(sep)` for a single-character separator (`str.split`
semantics: `''.split(sep) = ['']`). -/
def splitOnChar (sep : Char) : Str → List Str
  | [] => [[]]
  | c :: cs =>
    match splitOnChar sep cs with
    | [] => [[]]
    | h :: t => if c = sep then [] :: h :: t else (c :: h) :: t

/-- The component loop of `ntpath.normpath` (the index/del loop,
rendered as a zipper: the reversed processed prefix is the stack). -/
def normComps (rooted : Bool) : List Str → List Str → List Str
  | stack, [] => stack.reverse
  | stack, c :: cs =>
    if c = [] ∨ c = ['.'] then normComps rooted stack cs
    else if c = ['.', '.'] then
      match stack with
      | top :: rest =>
        if top = ['.', '.'] then normComps rooted (c :: (top :: rest)) cs
        else normComps rooted rest cs
      | [] =>
        if rooted then normComps rooted [] cs
        else normComps rooted [c] cs
    else normComps rooted (c :: stack) cs

/-- `ntpath.normpath`. -/
def ntNormpath (p : Str) : Str :=
  if p.take 4 = str "\\\\.\\" ∨ p.take 4 = str "\\\\?\\" then p
  else
    let p1 := replaceAltsep p
    let d := (ntSplitdrive p1).1
    let r := (ntSplitdrive p1).2
    let rooted : Bool := match r.head? with | some c => c = '\\' | none => false
    let pre := if rooted then d ++ ['\\'] else d
    let body := if rooted then r.dropWhile (fun c => c = '\\') else r
    let comps := normComps rooted [] (splitOnChar '\\' body)
    let comps2 := if pre = [] ∧ comps = [] then [['.']] else comps
    pre ++ List.intercalate ['\\'] comps2

/-- `ntpath.abspath`, modelled by its documented pure fallback
`normpath(join(cwd, path))`; the process working directory is an
explicit parameter (it is never consulted for the absolute paths the
program builds). -/
def ntAbspath (cwd p : Str) : Str :=
  if ntIsAbs p then ntNormpath p else ntNormpath (ntJoin cwd p)

/-! ## `Media.__init__` and serialization (media_factory.py 69-119,
database.py 131-156) -/

/-- `Media._format_paths` (media_factory.py lines 83-97), with the
ambient working directory explicit. -/
def Media.format_paths (cwd : Str) (image_filepath : Str)
    (volume_name : Option Str) : Str × Str :=
  let dl0 := (ntSplitdrive image_filepath).1
  let tail := (ntSplitdrive image_filepath).2
  let dl := if dl0 = [] then dl0 else ntJoin dl0 ['\\']
  let ifp := if dl0 = [] then image_filepath
             else ntAbspath cwd (ntJoin dl (lstripBackslash tail))
  match volume_name with
  | some v => if v = [] then ntSplit ifp else (dl, v)
  | none => ntSplit ifp

/-- Python's `\w` on the ASCII range (the model's alphabet). -/
def isWordChar (c : Char) : Bool := c.isAlphanum || c = '_'

/-- `str.capitalize`: first character upper-cased, the rest
lower-cased. -/
def capitalize (s : Str) : Str :=
  match s with
  | [] => []
  | c :: cs => c.toUpper :: cs.map Char.toLower

/-- `Media.to_title_case` (media_factory.py lines 106-113). -/
def Media.to_title_case (name : Str) : Str :=
  let articles := [str "a", str "an", str "of", str "the", str "is"]
  match splitOnChar ' ' name with
  | [] => []
  | w :: ws =>
    List.intercalate [' ']
      (capitalize w ::
        ws.map (fun word => if word ∈ articles then word else capitalize word))

/-- `Media._format_media_name` (media_factory.py lines 99-104). -/
def Media.format_media_name (file_name : Str) : Str :=
  let stripped := (ntSplitext file_name).1
  let kept := stripped.filter (fun c => c = '_' || c = ' ' || isWordChar c)
  Media.to_title_case (kept.map (fun c => if c = '_' then ' ' else c))

/-- `Media.__init__` (media_factory.py lines 69-81): the
`source_type` / `media_type` setters raise `ValueError` on anything but
their two allowed values (`none`). -/
def Media.init (cwd : Str) (image_filepath handbrake_path source_type media_type : Str)
    (volume_name : Option Str) : Option Media :=
  if (source_type = str "file" ∨ source_type = str "drive") ∧
      (media_type = str "movie" ∨ media_type = str "series") then
    let paths := Media.format_paths cwd image_filepath volume_name
    some { handbrake_path := handbrake_path, source_type := source_type,
           media_type := media_type, image_path := paths.1,
           file_name := paths.2,
           media_name := Media.format_media_name paths.2,
           year := none, season := none }
  else none

/-- `Media.get_source_path` (media_factory.py lines 115-119). -/
def Media.get_source_path (m : Media) : Str :=
  if m.source_type = str "drive" then m.image_path
  else ntJoin m.image_path m.file_name

/-- `str(n)` for a natural number. -/
def natToChars (n : Nat) : Str :=
  if n = 0 then ['0']
  else ((Nat.digits 10 n).reverse).map (fun d => Char.ofNat (48 + d))

/-- `str(z)` for a Python int. -/
def intToChars (z : Int) : Str :=
  if z < 0 then '-' :: natToChars z.natAbs else natToChars z.toNat

/-- `str(x)` for an optional int (`str(None) = 'None'`). -/
def optIntStr : Option Int → Str
  | none => str "None"
  | some z => intToChars z

/-- `int(s)` on the grammar the serializer produces (optional `'-'`
then nonempty digits; the full CPython grammar further allows
whitespace, `'+'` and underscores, which never occur here).  `none`
models the `ValueError`. -/
def parseDigits (s : Str) : Option Nat :=
  if s ≠ [] ∧ s.all (fun c => c.isDigit) then some (digitsVal s) else none

/-- Signed `int(s)`. -/
def pyInt (s : Str) : Option Int :=
  match s with
  | '-' :: rest => (parseDigits rest).map (fun n => -(n : Int))
  | _ => (parseDigits s).map (fun n => (n : Int))

/-- `EncodeDatabase.adapt_media` (database.py lines 131-143): the
seven-field `';'`-joined serialization.  The volume field is
`media.file_name` for drive media and `None` (printed `'None'`)
otherwise. -/
def EncodeDatabase.adapt_media (m : Media) : Str :=
  m.get_source_path ++ ';' :: m.handbrake_path ++ ';' :: m.source_type ++
    ';' :: m.media_type ++
    ';' :: (if m.source_type = str "drive" then m.file_name else str "None") ++
    ';' :: optIntStr m.year ++ ';' :: optIntStr m.season

/-- `EncodeDatabase.convert_media` (database.py lines 145-156): split
on `';'` into exactly seven fields (anything else raises), rebuild the
`Media`, and parse year/season when not `'None'`.  The stored TEXT is
handed over as the same character sequence (`decode('ascii')` is the
identity on the ASCII text this program produces). -/
def EncodeDatabase.convert_media (cwd : Str) (db_string : Str) : Option Media :=
  match splitOnChar ';' db_string with
  | [path, handbrake_path, source_type, media_type, volume, year, season] =>
    let vol := if volume = str "None" then none else some volume
    match Media.init cwd path handbrake_path source_type media_type vol with
    | none => none
    | some m =>
      let my : Option (Option Int) :=
        if year = str "None" then some none else (pyInt year).map some
      let ms : Option (Option Int) :=
        if season = str "None" then some none else (pyInt season).map some
      match my, ms with
      | some y, some s => some { m with year := y, season := s }
      | _, _ => none
  | _ => none

/-! ## C10 infrastructure: list and text lemmas -/

/-- The part of `r` after its last separator (the `tail` of
`ntpath.split`). -/
def tailPart (r : Str) : Str := (r.reverse.takeWhile (fun c => !(isSep c))).reverse

/-- The part of `r` up to and including its last separator. -/
def headPart (r : Str) : Str := (r.reverse.dropWhile (fun c => !(isSep c))).reverse

/-- `ntSplit` in terms of `headPart`/`tailPart`. -/
lemma ntSplit_eq (p : Str) :
    ntSplit p
      = ((ntSplitdrive p).1 ++
          (if rstripSeps (headPart (ntSplitdrive p).2) = []
           then headPart (ntSplitdrive p).2
           else rstripSeps (headPart (ntSplitdrive p).2)),
         tailPart (ntSplitdrive p).2) := rfl

/-- `takeWhile`/`dropWhile` across a failing element. -/
lemma takeWhile_append_stop {q : Char → Bool} (l1 : Str) (x : Char) (l2 : Str)
    (h1 : ∀ c ∈ l1, q c = true) (hx : q x = false) :
    (l1 ++ x :: l2).takeWhile q = l1 ∧ (l1 ++ x :: l2).dropWhile q = x :: l2 := by
  induction l1 with
  | nil => simp [List.takeWhile, List.dropWhile, hx]
  | cons a l ih =>
    have ha : q a = true := h1 a (List.mem_cons_self a l)
    have := ih (fun c hc => h1 c (List.mem_cons_of_mem a hc))
    simp [List.takeWhile_cons, List.dropWhile_cons, ha, this.1, this.2]

/-- `takeWhile`/`dropWhile` when everything passes. -/
lemma takeWhile_all {q : Char → Bool} (l : Str) (h : ∀ c ∈ l, q c = true) :
    l.takeWhile q = l ∧ l.dropWhile q = [] := by
  induction l with
  | nil => simp
  | cons a l ih =>
    have ha : q a = true := h a (List.mem_cons_self a l)
    have := ih (fun c hc => h c (List.mem_cons_of_mem a hc))
    simp [List.takeWhile_cons, List.dropWhile_cons, ha, this.1, this.2]

/-- The head of a `dropWhile` result fails the predicate. -/
lemma dropWhile_head_false {q : Char → Bool} (l : Str) {c : Char} {cs : Str}
    (h : l.dropWhile q = c :: cs) : q c = false := by
  induction l with
  | nil => cases h
  | cons a l ih =>
    rw [List.dropWhile_cons] at h
    by_cases ha : q a = true
    · rw [if_pos ha] at h
      exact ih h
    · rw [if_neg ha] at h
      cases h
      exact Bool.eq_false_iff.mpr ha

/-- An all-failing `dropWhile` result means every element passed. -/
lemma dropWhile_nil_imp {q : Char → Bool} (l : Str) (h : l.dropWhile q = []) :
    ∀ c ∈ l, q c = true := by
  induction l with
  | nil => intro c hc; cases hc
  | cons a l ih =>
    rw [List.dropWhile_cons] at h
    by_cases ha : q a = true
    · rw [if_pos ha] at h
      intro c hc
      rcases List.mem_cons.mp hc with rfl | hc
      · exact ha
      · exact ih h c hc
    · rw [if_neg ha] at h
      cases h

/-- `headPart` and `tailPart` reassemble `r`. -/
lemma headPart_append_tailPart (r : Str) : headPart r ++ tailPart r = r := by
  unfold headPart tailPart
  rw [← List.reverse_append, List.takeWhile_append_dropWhile, List.reverse_reverse]

/-- Tails of `ntpath.split` carry no separators. -/
lemma tailPart_sep_free (r : Str) : ∀ c ∈ tailPart r, isSep c = false := by
  intro c hc
  rw [tailPart, List.mem_reverse] at hc
  have := List.mem_takeWhile_imp hc
  simpa using this

/-- A separator-free string is all tail. -/
lemma tailPart_of_sep_free (r : Str) (h : ∀ c ∈ r, isSep c = false) :
    tailPart r = r ∧ headPart r = [] := by
  have hall := takeWhile_all (q := fun c => !(isSep c)) r.reverse
    (fun c hc => by simp [h c (List.mem_reverse.mp hc)])
  constructor
  · rw [tailPart, hall.1, List.reverse_reverse]
  · rw [headPart, hall.2, List.reverse_nil]

/-- Splitting off a separator-free suffix after an explicit separator. -/
lemma tailPart_append (a : Str) (x : Char) (b : Str) (hx : isSep x = true)
    (hb : ∀ c ∈ b, isSep c = false) :
    tailPart (a ++ x :: b) = b ∧ headPart (a ++ x :: b) = a ++ [x] := by
  have hrev : (a ++ x :: b).reverse = b.reverse ++ x :: a.reverse := by
    simp
  have hstop := takeWhile_append_stop (q := fun c => !(isSep c)) b.reverse x a.reverse
    (fun c hc => by simp [hb c (List.mem_reverse.mp hc)]) (by simp [hx])
  constructor
  · rw [tailPart, hrev, hstop.1, List.reverse_reverse]
  · rw [headPart, hrev, hstop.2]
    simp

/-- Trailing separators strip off one at a time. -/
lemma rstripSeps_append_sep (a : Str) (x : Char) (hx : isSep x = true) :
    rstripSeps (a ++ [x]) = rstripSeps a := by
  rw [rstripSeps, rstripSeps, List.reverse_append]
  simp [List.dropWhile_cons, hx]

/-- A string ending in a non-separator is `rstrip`-stable. -/
lemma rstripSeps_last_not_sep (a : Str) (x : Char) (hx : isSep x = false) :
    rstripSeps (a ++ [x]) = a ++ [x] := by
  rw [rstripSeps, List.reverse_append]
  simp [List.dropWhile_cons, hx]

/-- `rstripSeps` yields a prefix. -/
lemma rstripSeps_prefix (s : Str) : rstripSeps s <+: s := by
  have h := List.IsSuffix.reverse (List.dropWhile_suffix (l := s.reverse) (fun c => isSep c))
  rw [List.reverse_reverse] at h
  exact h

/-- `rstripSeps` is empty or ends in a non-separator. -/
lemma rstripSeps_struct (s : Str) :
    rstripSeps s = [] ∨ ∃ a c, rstripSeps s = a ++ [c] ∧ isSep c = false := by
  rw [rstripSeps]
  cases hdw : s.reverse.dropWhile (fun c => isSep c) with
  | nil => exact Or.inl rfl
  | cons c cs =>
    refine Or.inr ⟨cs.reverse, c, ?_, dropWhile_head_false _ hdw⟩
    simp

/-- A string containing a non-separator does not strip to nothing. -/
lemma rstripSeps_ne_nil (s : Str) (h : ∃ c ∈ s, isSep c = false) :
    rstripSeps s ≠ [] := by
  intro hnil
  obtain ⟨c, hc, hcs⟩ := h
  rw [rstripSeps] at hnil
  have := dropWhile_nil_imp _ (by simpa using hnil) c (List.mem_reverse.mpr hc)
  rw [hcs] at this
  cases this

/-- `str.split` never returns an empty list. -/
lemma splitOnChar_ne_nil (sep : Char) (s : Str) : splitOnChar sep s ≠ [] := by
  induction s with
  | nil => simp [splitOnChar]
  | cons c cs ih =>
    rw [splitOnChar]
    cases hs : splitOnChar sep cs with
    | nil => exact absurd hs ih
    | cons h t =>
      by_cases hc : c = sep <;> simp [hc]

/-- `str.split` on a separator-free string. -/
lemma splitOnChar_no_sep (sep : Char) (a : Str) (h : sep ∉ a) :
    splitOnChar sep a = [a] := by
  induction a with
  | nil => rfl
  | cons c cs ih =>
    have hc : ¬(c = sep) := fun h2 => h (h2 ▸ List.mem_cons_self c cs)
    have hcs : sep ∉ cs := fun h2 => h (List.mem_cons_of_mem c h2)
    rw [splitOnChar, ih hcs]
    simp [hc]

/-- `str.split` across the first separator. -/
lemma splitOnChar_append (sep : Char) (a rest : Str) (h : sep ∉ a) :
    splitOnChar sep (a ++ sep :: rest) = a :: splitOnChar sep rest := by
  induction a with
  | nil =>
    rw [List.nil_append, splitOnChar]
    cases hs : splitOnChar sep rest with
    | nil => exact absurd hs (splitOnChar_ne_nil sep rest)
    | cons h2 t2 => simp
  | cons c cs ih =>
    have hc : ¬(c = sep) := fun h2 => h (h2 ▸ List.mem_cons_self c cs)
    have hcs : sep ∉ cs := fun h2 => h (List.mem_cons_of_mem c h2)
    rw [List.cons_append, splitOnChar, ih hcs]
    simp [hc]

/-- Pieces of `str.split` are separator-free substrings. -/
lemma splitOnChar_mem (sep : Char) (s : Str) (x : Str) (hx : x ∈ splitOnChar sep s) :
    (∀ c ∈ x, ¬(c = sep)) ∧ (∀ c ∈ x, c ∈ s) := by
  induction s generalizing x with
  | nil =>
    rw [splitOnChar] at hx
    rcases List.mem_singleton.mp hx with rfl
    exact ⟨fun c hc => absurd hc (List.not_mem_nil c), fun c hc => hc⟩
  | cons a as ih =>
    rw [splitOnChar] at hx
    cases hs : splitOnChar sep as with
    | nil => exact absurd hs (splitOnChar_ne_nil sep as)
    | cons h2 t2 =>
      rw [hs] at hx
      dsimp only at hx
      by_cases ha : a = sep
      · rw [if_pos ha] at hx
        rcases List.mem_cons.mp hx with rfl | hx
        · exact ⟨fun c hc => absurd hc (List.not_mem_nil c),
            fun c hc => absurd hc (List.not_mem_nil c)⟩
        · have := ih x (hs ▸ hx)
          exact ⟨this.1, fun c hc => List.mem_cons_of_mem a (this.2 c hc)⟩
      · rw [if_neg ha] at hx
        rcases List.mem_cons.mp hx with rfl | hx
        · have hsub := ih h2 (hs ▸ List.mem_cons_self h2 t2)
          constructor
          · intro c hc
            rcases List.mem_cons.mp hc with rfl | hc
            · exact ha
            · exact hsub.1 c hc
          · intro c hc
            rcases List.mem_cons.mp hc with rfl | hc
            · exact List.mem_cons_self c as
            · exact List.mem_cons_of_mem a (hsub.2 c hc)
        · have := ih x (hs ▸ List.mem_cons_of_mem h2 hx)
          exact ⟨this.1, fun c hc => List.mem_cons_of_mem a (this.2 c hc)⟩

/-- `intercalate` over a singleton. -/
lemma intercalate_single (s : Str) (a : Str) : List.intercalate s [a] = a := by
  simp [List.intercalate, List.intersperse]

/-- `intercalate` over a two-or-more list. -/
lemma intercalate_cons_cons (s : Str) (a b : Str) (t : List Str) :
    List.intercalate s (a :: b :: t) = a ++ s ++ List.intercalate s (b :: t) := by
  simp [List.intercalate, List.intersperse]

/-- `split` undoes `intercalate` for separator-free pieces. -/
lemma splitOnChar_intercalate (sep : Char) (cs : List Str) (hne : cs ≠ [])
    (h : ∀ x ∈ cs, sep ∉ x) :
    splitOnChar sep (List.intercalate [sep] cs) = cs := by
  induction cs with
  | nil => exact absurd rfl hne
  | cons a t ih =>
    cases t with
    | nil =>
      rw [intercalate_single]
      exact splitOnChar_no_sep sep a (h a (List.mem_cons_self a []))
    | cons b t2 =>
      rw [intercalate_cons_cons]
      have ha : sep ∉ a := h a (List.mem_cons_self a _)
      have : a ++ [sep] ++ List.intercalate [sep] (b :: t2)
          = a ++ sep :: List.intercalate [sep] (b :: t2) := by simp
      rw [this, splitOnChar_append sep a _ ha,
        ih (by simp) (fun x hx => h x (List.mem_cons_of_mem a hx))]

/-! ## C10 infrastructure: `normComps`, `ntSplitdrive`, `ntJoin` -/

/-- A normalized path component: nonempty and not a dot form. -/
def goodComp (c : Str) : Prop := c ≠ [] ∧ c ≠ ['.'] ∧ c ≠ ['.', '.']

/-- `normComps` on an exhausted input (by definition). -/
lemma normComps_nil (rooted : Bool) (stack : List Str) :
    normComps rooted stack [] = stack.reverse := rfl

/-- `normComps` unfolded one component (by definition). -/
lemma normComps_cons (rooted : Bool) (stack : List Str) (c : Str) (cs : List Str) :
    normComps rooted stack (c :: cs)
      = if c = [] ∨ c = ['.'] then normComps rooted stack cs
        else if c = ['.', '.'] then
          match stack with
          | top :: rest =>
            if top = ['.', '.'] then normComps rooted (c :: (top :: rest)) cs
            else normComps rooted rest cs
          | [] =>
            if rooted then normComps rooted [] cs else normComps rooted [c] cs
        else normComps rooted (c :: stack) cs := rfl

/-- Every output component of `normComps` came from the stack or the
input. -/
lemma normComps_mem (rooted : Bool) (stack cs : List Str) :
    ∀ x ∈ normComps rooted stack cs, x ∈ stack ∨ x ∈ cs := by
  induction cs generalizing stack with
  | nil =>
    intro x hx
    rw [normComps_nil] at hx
    exact Or.inl (List.mem_reverse.mp hx)
  | cons c t ih =>
    intro x hx
    rw [normComps_cons] at hx
    by_cases h1 : c = [] ∨ c = ['.']
    · rw [if_pos h1] at hx
      rcases ih stack x hx with h | h
      · exact Or.inl h
      · exact Or.inr (List.mem_cons_of_mem c h)
    · rw [if_neg h1] at hx
      by_cases h2 : c = ['.', '.']
      · rw [if_pos h2] at hx
        cases hst : stack with
        | nil =>
          rw [hst] at hx
          dsimp only at hx
          by_cases hr : rooted = true
          · rw [if_pos hr] at hx
            rcases ih [] x hx with h | h
            · cases h
            · exact Or.inr (List.mem_cons_of_mem c h)
          · rw [if_neg hr] at hx
            rcases ih [c] x hx with h | h
            · rcases List.mem_singleton.mp h with rfl
              exact Or.inr (List.mem_cons_self _ _)
            · exact Or.inr (List.mem_cons_of_mem c h)
        | cons top rest =>
          rw [hst] at hx
          dsimp only at hx
          by_cases ht : top = ['.', '.']
          · rw [if_pos ht] at hx
            rcases ih (c :: top :: rest) x hx with h | h
            · rcases List.mem_cons.mp h with rfl | h
              · exact Or.inr (List.mem_cons_self _ _)
              · exact Or.inl (hst ▸ h)
            · exact Or.inr (List.mem_cons_of_mem c h)
          · rw [if_neg ht] at hx
            rcases ih rest x hx with h | h
            · exact Or.inl (hst ▸ List.mem_cons_of_mem top h)
            · exact Or.inr (List.mem_cons_of_mem c h)
      · rw [if_neg h2] at hx
        rcases ih (c :: stack) x hx with h | h
        · rcases List.mem_cons.mp h with rfl | h
          · exact Or.inr (List.mem_cons_self _ _)
          · exact Or.inl h
        · exact Or.inr (List.mem_cons_of_mem c h)

/-- With a rooted prefix, every output component of `normComps` is a
real name (nonempty, not `.` or `..`). -/
lemma normComps_good (stack cs : List Str)
    (hst : ∀ x ∈ stack, goodComp x) :
    ∀ x ∈ normComps true stack cs, goodComp x := by
  induction cs generalizing stack with
  | nil =>
    intro x hx
    rw [normComps_nil] at hx
    exact hst x (List.mem_reverse.mp hx)
  | cons c t ih =>
    intro x hx
    rw [normComps_cons] at hx
    by_cases h1 : c = [] ∨ c = ['.']
    · rw [if_pos h1] at hx
      exact ih stack hst x hx
    · rw [if_neg h1] at hx
      by_cases h2 : c = ['.', '.']
      · rw [if_pos h2] at hx
        cases hstk : stack with
        | nil =>
          rw [hstk] at hx
          dsimp only at hx
          rw [if_pos rfl] at hx
          exact ih [] (fun y hy => absurd hy (List.not_mem_nil y)) x hx
        | cons top rest =>
          rw [hstk] at hx
          dsimp only at hx
          have htop : goodComp top := hst top (hstk ▸ List.mem_cons_self top rest)
          have ht : ¬(top = ['.', '.']) := htop.2.2
          rw [if_neg ht] at hx
          exact ih rest (fun y hy => hst y (hstk ▸ List.mem_cons_of_mem top hy)) x hx
      · rw [if_neg h2] at hx
        push_neg at h1
        refine ih (c :: stack) ?_ x hx
        intro y hy
        rcases List.mem_cons.mp hy with rfl | hy
        · exact ⟨h1.1, h1.2, h2⟩
        · exact hst y hy

/-- `normComps` is the identity on good components. -/
lemma normComps_id (rooted : Bool) (stack cs : List Str)
    (h : ∀ x ∈ cs, goodComp x) :
    normComps rooted stack cs = stack.reverse ++ cs := by
  induction cs generalizing stack with
  | nil => rw [normComps_nil, List.append_nil]
  | cons c t ih =>
    have hc := h c (List.mem_cons_self c t)
    rw [normComps_cons]
    rw [if_neg (by
      intro h1
      rcases h1 with h1 | h1
      · exact hc.1 h1
      · exact hc.2.1 h1)]
    rw [if_neg hc.2.2]
    rw [ih (c :: stack) (fun x hx => h x (List.mem_cons_of_mem c hx))]
    simp

/-! ## C10 infrastructure: `ntSplitdrive`, `ntJoin`, `ntSplit` facts -/

/-- `splitdrive` finds no drive without a position-1 colon or a UNC
(double-separator) start. -/
lemma ntSplitdrive_no_drive (p : Str) (hcol : ':' ∉ p)
    (hhead : ∀ c, p.head? = some c → isSep c = false) :
    ntSplitdrive p = ([], p) := by
  cases p with
  | nil => rfl
  | cons c q =>
    cases q with
    | nil => rfl
    | cons d rest =>
      have hc : isSep c = false := hhead c rfl
      have hc1 : ¬(c = '\\') := by
        intro h
        rw [h] at hc
        cases hc
      have hc2 : ¬(c = '/') := by
        intro h
        rw [h] at hc
        cases hc
      have hd : ¬(d = ':') :=
        fun h => hcol (h ▸ List.mem_cons_of_mem c (List.mem_cons_self d rest))
      have hd2 : ¬((if d = '/' then '\\' else d) = ':') := by
        by_cases h : d = '/' <;> simp [h, hd]
      rw [ntSplitdrive]
      rw [if_pos (by simp)]
      have hrep : replaceAltsep (c :: d :: rest)
          = c :: (if d = '/' then '\\' else d) :: replaceAltsep rest := by
        simp [replaceAltsep, hc2]
      rw [hrep]
      have hA : decide (List.take 2 (c :: (if d = '/' then '\\' else d) :: replaceAltsep rest)
          = ['\\', '\\']) = false := by
        apply decide_eq_false
        intro h
        apply hc1
        have h2 := congrArg List.head? h
        simpa using h2
      simp only [hA, Bool.false_and, Bool.false_eq_true, if_false]
      rw [if_neg (by
        intro h
        apply hd2
        have h2 := congrArg List.head? h
        simpa using h2)]

/-- `splitdrive` of a letter-drive path. -/
lemma ntSplitdrive_letter (c1 : Char) (rest : Str) (hc : isSep c1 = false) :
    ntSplitdrive (c1 :: ':' :: rest) = ([c1, ':'], rest) := by
  have hc1 : ¬(c1 = '\\') := by
    intro h
    rw [h] at hc
    cases hc
  have hc2 : ¬(c1 = '/') := by
    intro h
    rw [h] at hc
    cases hc
  rw [ntSplitdrive]
  rw [if_pos (by simp)]
  have hrep : replaceAltsep (c1 :: ':' :: rest)
      = c1 :: ':' :: replaceAltsep rest := by
    simp [replaceAltsep, hc2]
  rw [hrep]
  have hA : decide (List.take 2 (c1 :: ':' :: replaceAltsep rest)
      = ['\\', '\\']) = false := by
    apply decide_eq_false
    intro h
    apply hc1
    have h2 := congrArg List.head? h
    simpa using h2
  simp only [hA, Bool.false_and, Bool.false_eq_true, if_false]
  rw [if_pos (by simp)]
  simp

/-- `ntpath.join` when the second path is relative and drive-free and
the first carries no drive or a letter drive. -/
lemma ntJoin_rel (a b : Str) (hbd : ntSplitdrive b = ([], b))
    (hbh : ∀ c, b.head? = some c → isSep c = false)
    (had : (ntSplitdrive a).1 = [] ∨ (ntSplitdrive a).1.getLast? = some ':') :
    ntJoin a b = (ntSplitdrive a).1 ++ relAppend (ntSplitdrive a).2 b := by
  unfold ntJoin
  rw [hbd]
  have habs : (match (b.head?) with | some c => isSep c | none => false) = false := by
    cases hb : b.head? with
    | none => rfl
    | some c => exact hbh c hb
  simp only [habs, Bool.false_eq_true, if_false]
  have hstep : ¬(([] : Str) ≠ [] ∧ ([] : Str) ≠ (ntSplitdrive a).1) :=
    fun hcon => hcon.1 rfl
  simp only [if_neg hstep]
  rcases had with hempty | hcolon
  · simp [hempty]
  · simp [hcolon]

/-- `join('X:', '\\')` roots the drive. -/
lemma ntJoin_drive_backslash (c1 : Char) (hc : isSep c1 = false) :
    ntJoin [c1, ':'] ['\\'] = [c1, ':', '\\'] := by
  unfold ntJoin
  rw [ntSplitdrive_letter c1 [] hc]
  rw [show ntSplitdrive ['\\'] = ([], ['\\']) from rfl]
  simp [isSep]

/-- Joining a relative, drive-free path onto a rooted drive is plain
concatenation. -/
lemma ntJoin_drive_root_rel (c1 : Char) (b : Str) (hc : isSep c1 = false)
    (hbd : ntSplitdrive b = ([], b))
    (hbh : ∀ c, b.head? = some c → isSep c = false) :
    ntJoin [c1, ':', '\\'] b = [c1, ':', '\\'] ++ b := by
  rw [ntJoin_rel _ b hbd hbh (by
    rw [ntSplitdrive_letter c1 ['\\'] hc]
    exact Or.inr rfl)]
  rw [ntSplitdrive_letter c1 ['\\'] hc]
  rw [show relAppend ['\\'] b = '\\' :: b from by simp [relAppend, isSep]]
  rfl

/-- `headPart` is empty or ends with the last separator. -/
lemma headPart_struct (r : Str) :
    headPart r = [] ∨ ∃ a c, headPart r = a ++ [c] ∧ isSep c = true := by
  rw [headPart]
  cases hdw : r.reverse.dropWhile (fun c => !(isSep c)) with
  | nil => exact Or.inl rfl
  | cons c cs =>
    refine Or.inr ⟨cs.reverse, c, by simp, ?_⟩
    have := dropWhile_head_false _ hdw
    simpa using this

/-- A nonempty prefix shares the head. -/
lemma prefix_head? (l1 l2 : Str) (h : l1 <+: l2) (hne : l1 ≠ []) :
    l2.head? = l1.head? := by
  obtain ⟨s, hs⟩ := h
  rw [← hs]
  cases l1 with
  | nil => exact absurd rfl hne
  | cons a t => rfl

/-- Round-trip stability of `split`/`join` on drive-free paths whose
head is not a separator: the joined source path re-splits into the same
components and re-joins to itself. -/
lemma file_roundtrip_driveless (x : Str) (hcol : ':' ∉ x)
    (hhead : ∀ c, x.head? = some c → isSep c = false) :
    ntSplitdrive (ntJoin (ntSplit x).1 (ntSplit x).2)
        = ([], ntJoin (ntSplit x).1 (ntSplit x).2) ∧
    (':' ∉ ntJoin (ntSplit x).1 (ntSplit x).2) ∧
    ntSplit (ntJoin (ntSplit x).1 (ntSplit x).2) = ((ntSplit x).1, (ntSplit x).2) ∧
    ntJoin (ntSplit (ntJoin (ntSplit x).1 (ntSplit x).2)).1
        (ntSplit (ntJoin (ntSplit x).1 (ntSplit x).2)).2
      = ntJoin (ntSplit x).1 (ntSplit x).2 := by
  have hsd : ntSplitdrive x = ([], x) := ntSplitdrive_no_drive x hcol hhead
  have hteq : (ntSplit x).2 = tailPart x := by rw [ntSplit_eq, hsd]
  have htsf : ∀ c ∈ tailPart x, isSep c = false := tailPart_sep_free x
  have htsub : ∀ c ∈ tailPart x, c ∈ x := by
    intro c hc
    rw [← headPart_append_tailPart x]
    exact List.mem_append.mpr (Or.inr hc)
  have htcol : ':' ∉ tailPart x := fun h => hcol (htsub ':' h)
  have htd : ntSplitdrive (tailPart x) = ([], tailPart x) :=
    ntSplitdrive_no_drive _ htcol (fun c hc => htsf c (List.mem_of_mem_head? hc))
  have hth : ∀ c, (tailPart x).head? = some c → isSep c = false :=
    fun c hc => htsf c (List.mem_of_mem_head? hc)
  rcases headPart_struct x with hpnil | ⟨a, csep, hpa, hcsep⟩
  · -- no separator in x: empty head, x itself is the tail
    have hxt : tailPart x = x := by
      have h0 := headPart_append_tailPart x
      rw [hpnil] at h0
      simpa using h0
    have hheq : (ntSplit x).1 = [] := by
      rw [ntSplit_eq, hsd, hpnil]
      simp [rstripSeps]
    have hq : ntJoin [] x = x := by
      rw [ntJoin_rel [] x hsd hhead (Or.inl (by rfl))]
      rfl
    have hsplit : ntSplit x = ([], x) := by
      rw [ntSplit_eq, hsd, hpnil, hxt]
      simp [rstripSeps]
    rw [hheq, hteq, hxt, hq]
    exact ⟨hsd, hcol, by rw [hsplit], by rw [hsplit]; exact hq⟩
  · -- x = a ++ csep :: tailPart x with csep the last separator
    have hxdecomp : a ++ csep :: tailPart x = x := by
      have h0 := headPart_append_tailPart x
      rw [hpa] at h0
      simpa using h0
    cases a with
    | nil =>
      exfalso
      rw [List.nil_append] at hxdecomp
      have : x.head? = some csep := by rw [← hxdecomp]; rfl
      have := hhead csep this
      rw [hcsep] at this
      cases this
    | cons a0 a1 =>
      have hhead_a : x.head? = some a0 := by
        rw [← hxdecomp]
        rfl
      have ha0 : isSep a0 = false := hhead a0 hhead_a
      have hstrip_ne : rstripSeps (a0 :: a1) ≠ [] :=
        rstripSeps_ne_nil _ ⟨a0, List.mem_cons_self a0 a1, ha0⟩
      have hheq : (ntSplit x).1 = rstripSeps (a0 :: a1) := by
        rw [ntSplit_eq, hsd, hpa, rstripSeps_append_sep _ csep hcsep,
          if_neg hstrip_ne]
        rfl
      rcases rstripSeps_struct (a0 :: a1) with h0 | ⟨a2, c2, hh2, hc2⟩
      · exact absurd h0 hstrip_ne
      have hpre : rstripSeps (a0 :: a1) <+: (a0 :: a1) := rstripSeps_prefix _
      have hsub_h : ∀ c ∈ rstripSeps (a0 :: a1), c ∈ x := by
        intro c hc
        rw [← hxdecomp]
        exact List.mem_append.mpr (Or.inl (hpre.subset hc))
      have hhcol : ':' ∉ rstripSeps (a0 :: a1) := fun h => hcol (hsub_h ':' h)
      have hh_head : (rstripSeps (a0 :: a1)).head? = some a0 := by
        have h0 := prefix_head? _ _ hpre hstrip_ne
        rw [← h0]
        rfl
      have hhd : ntSplitdrive (rstripSeps (a0 :: a1)) = ([], rstripSeps (a0 :: a1)) := by
        refine ntSplitdrive_no_drive _ hhcol ?_
        intro c hc
        rw [hh_head] at hc
        cases hc
        exact ha0
      have hlast : (rstripSeps (a0 :: a1)).getLast? = some c2 := by
        rw [hh2]
        exact List.getLast?_concat _
      have hrelA : relAppend (rstripSeps (a0 :: a1)) (tailPart x)
          = rstripSeps (a0 :: a1) ++ '\\' :: tailPart x := by
        unfold relAppend
        rw [hlast]
        dsimp only
        rw [if_neg (by rw [hc2]; simp)]
      have hq : ntJoin (rstripSeps (a0 :: a1)) (tailPart x)
          = rstripSeps (a0 :: a1) ++ '\\' :: tailPart x := by
        rw [ntJoin_rel _ _ htd hth (Or.inl (by rw [hhd])), hhd, hrelA]
        rfl
      set q := rstripSeps (a0 :: a1) ++ '\\' :: tailPart x with hqdef
      have hqcol : ':' ∉ q := by
        intro h
        rcases List.mem_append.mp h with h | h
        · exact hhcol h
        · rcases List.mem_cons.mp h with h | h
          · cases h
          · exact htcol h
      have hqhead : q.head? = some a0 := by
        rw [hqdef, List.head?_append_of_ne_nil _ hstrip_ne, hh_head]
      have hqh : ∀ c, q.head? = some c → isSep c = false := by
        intro c hc
        rw [hqhead] at hc
        cases hc
        exact ha0
      have hsdq : ntSplitdrive q = ([], q) := ntSplitdrive_no_drive q hqcol hqh
      have hrstr_h : rstripSeps (rstripSeps (a0 :: a1)) = rstripSeps (a0 :: a1) := by
        rw [hh2]
        exact rstripSeps_last_not_sep a2 c2 hc2
      have hsplitq : ntSplit q = (rstripSeps (a0 :: a1), tailPart x) := by
        have htp := tailPart_append (rstripSeps (a0 :: a1)) '\\' (tailPart x)
          (by simp [isSep]) htsf
        rw [ntSplit_eq, hsdq]
        dsimp only
        rw [hqdef]
        rw [htp.1, htp.2, rstripSeps_append_sep _ '\\' (by simp [isSep]), hrstr_h,
          if_neg hstrip_ne]
        rfl
      rw [hheq, hteq, hq, hsplitq]
      refine ⟨hsdq, hqcol, rfl, hq⟩

/-! ## C10: the serialization round trip (database.py 131-156,
media_factory.py 69-119) -/
/-- `replace(altsep, sep)` is the identity on slash-free text. -/
lemma replaceAltsep_no_slash (s : Str) (h : '/' ∉ s) : replaceAltsep s = s := by
  rw [replaceAltsep]
  rw [List.map_congr_left (fun c hc => if_neg (fun h2 : c = '/' => h (h2 ▸ hc)))]
  exact List.map_id s

/-- `lstrip('\\')` absorbs a leading backslash. -/
lemma lstripBackslash_cons (s : Str) : lstripBackslash ('\\' :: s) = lstripBackslash s := by
  simp [lstripBackslash, List.dropWhile_cons]

/-- After `lstrip('\\')` the head is not a backslash. -/
lemma lstripBackslash_head (s : Str) (c : Char)
    (h : (lstripBackslash s).head? = some c) : ¬(c = '\\') := by
  cases hdw : lstripBackslash s with
  | nil => rw [hdw] at h; cases h
  | cons d rest =>
    rw [hdw] at h
    cases h
    have := dropWhile_head_false (q := fun c => c = '\\') s hdw
    simpa using this

/-- `lstrip('\\')` is the identity when the head is not a backslash. -/
lemma lstripBackslash_of_head (s : Str)
    (h : ∀ c, s.head? = some c → ¬(c = '\\')) : lstripBackslash s = s := by
  cases s with
  | nil => rfl
  | cons c rest =>
    have := h c rfl
    simp [lstripBackslash, List.dropWhile_cons, this]

/-- `lstrip('\\')` only removes characters. -/
lemma lstripBackslash_subset (s : Str) : ∀ c ∈ lstripBackslash s, c ∈ s :=
  fun c hc => (List.dropWhile_sublist _).subset hc

/-- `intercalate` over a list with its last element split off. -/
lemma intercalate_concat (s : Str) (ds : List Str) (l : Str) :
    List.intercalate s (ds ++ [l])
      = if ds = [] then l else List.intercalate s ds ++ s ++ l := by
  induction ds with
  | nil =>
    rw [if_pos rfl, List.nil_append]
    exact intercalate_single s l
  | cons d0 ds' ih =>
    rw [if_neg (by simp)]
    cases ds' with
    | nil =>
      rw [List.cons_append, List.nil_append, intercalate_cons_cons,
        intercalate_single, intercalate_single]
    | cons d1 ds2 =>
      rw [List.cons_append, List.cons_append, intercalate_cons_cons]
      rw [List.cons_append] at ih
      rw [ih, if_neg (by simp), intercalate_cons_cons]
      simp [List.append_assoc]

/-- Characters of an `intercalate` come from the separator or a piece. -/
lemma intercalate_mem (s : Str) (cs : List Str) (ch : Char)
    (h : ch ∈ List.intercalate s cs) : ch ∈ s ∨ ∃ x ∈ cs, ch ∈ x := by
  induction cs with
  | nil => cases h
  | cons a t ih =>
    cases t with
    | nil =>
      rw [intercalate_single] at h
      exact Or.inr ⟨a, List.mem_cons_self a [], h⟩
    | cons b t2 =>
      rw [intercalate_cons_cons] at h
      rcases List.mem_append.mp h with h | h
      · rcases List.mem_append.mp h with h | h
        · exact Or.inr ⟨a, List.mem_cons_self a _, h⟩
        · exact Or.inl h
      · rcases ih h with h | ⟨x, hx, hch⟩
        · exact Or.inl h
        · exact Or.inr ⟨x, List.mem_cons_of_mem a hx, hch⟩

/-- A backslash-`intercalate` of nonempty separator-free pieces ends in a
non-separator. -/
lemma intercalate_last (cs : List Str) (hne : cs ≠ [])
    (hgood : ∀ x ∈ cs, x ≠ [])
    (hsepf : ∀ x ∈ cs, ∀ ch ∈ x, isSep ch = false) :
    ∃ a c, List.intercalate ['\\'] cs = a ++ [c] ∧ isSep c = false := by
  rcases List.eq_nil_or_concat cs with rfl | ⟨ds, l, rfl⟩
  · exact absurd rfl hne
  · rw [List.concat_eq_append] at *
    have hlmem : l ∈ ds ++ [l] := List.mem_append.mpr (Or.inr (List.mem_singleton.mpr rfl))
    have hl : l ≠ [] := hgood l hlmem
    rcases List.eq_nil_or_concat l with rfl | ⟨b2, bc, rfl⟩
    · exact absurd rfl hl
    rw [List.concat_eq_append] at *
    have hbc : isSep bc = false :=
      hsepf _ hlmem bc (List.mem_append.mpr (Or.inr (List.mem_singleton.mpr rfl)))
    rw [intercalate_concat]
    by_cases hds : ds = []
    · rw [if_pos hds]
      exact ⟨b2, bc, rfl, hbc⟩
    · rw [if_neg hds]
      exact ⟨List.intercalate ['\\'] ds ++ ['\\'] ++ b2, bc, by simp, hbc⟩

/-- The head of an `intercalate` is the head of its first piece. -/
lemma intercalate_head (c0 : Str) (t : List Str) (hc0 : c0 ≠ []) :
    (List.intercalate ['\\'] (c0 :: t)).head? = c0.head? := by
  cases t with
  | nil => rw [intercalate_single]
  | cons b t2 =>
    rw [intercalate_cons_cons, List.append_assoc,
      List.head?_append_of_ne_nil _ hc0]

/-- `ntpath.normpath` on a letter-drive rooted path: the drive and root
survive and the component loop runs on the remainder. -/
lemma ntNormpath_drive_rooted (c1 : Char) (stripped : Str)
    (hc : isSep c1 = false) (hslash : '/' ∉ stripped)
    (hhead : ∀ c, stripped.head? = some c → ¬(c = '\\')) :
    ntNormpath (c1 :: ':' :: '\\' :: stripped)
      = c1 :: ':' :: '\\' ::
          List.intercalate ['\\'] (normComps true [] (splitOnChar '\\' stripped)) := by
  have hc1 : ¬(c1 = '\\') := by
    intro h
    rw [h] at hc
    cases hc
  have hc2 : ¬(c1 = '/') := by
    intro h
    rw [h] at hc
    cases hc
  rw [ntNormpath]
  rw [if_neg (by
    intro hcon
    rcases hcon with h | h <;>
    · apply hc1
      have h2 := congrArg List.head? h
      simpa [str] using h2)]
  have hrep : replaceAltsep (c1 :: ':' :: '\\' :: stripped)
      = c1 :: ':' :: '\\' :: stripped := by
    rw [replaceAltsep, List.map_cons, List.map_cons, List.map_cons]
    rw [show (if c1 = '/' then '\\' else c1) = c1 from if_neg hc2]
    rw [show (if ':' = '/' then '\\' else ':') = ':' from rfl]
    rw [show (if '\\' = '/' then '\\' else '\\') = '\\' from rfl]
    rw [show List.map (fun c => if c = '/' then '\\' else c) stripped
        = replaceAltsep stripped from rfl]
    rw [replaceAltsep_no_slash stripped hslash]
  rw [hrep]
  dsimp only
  rw [ntSplitdrive_letter c1 ('\\' :: stripped) hc]
  dsimp only
  have hrooted : (match ('\\' :: stripped).head? with
      | some c => decide (c = '\\')
      | none => false) = true := rfl
  simp only [hrooted, if_pos rfl]
  have hbody : List.dropWhile (fun c => decide (c = '\\')) ('\\' :: stripped)
      = stripped := by
    rw [List.dropWhile_cons]
    rw [if_pos (by simp)]
    exact lstripBackslash_of_head stripped hhead
  rw [hbody]
  simp

/-- `split`/`join` stability on a normalised letter-drive rooted path built
from good separator-free colon-free components. -/
lemma drive_norm_split_join (c1 : Char) (cs : List Str) (hc : isSep c1 = false)
    (hgood : ∀ x ∈ cs, goodComp x)
    (hsepf : ∀ x ∈ cs, ∀ ch ∈ x, isSep ch = false)
    (hcolf : ∀ x ∈ cs, ':' ∉ x) :
    ntSplitdrive (c1 :: ':' :: '\\' :: List.intercalate ['\\'] cs)
      = ([c1, ':'], '\\' :: List.intercalate ['\\'] cs) ∧
    ntJoin (ntSplit (c1 :: ':' :: '\\' :: List.intercalate ['\\'] cs)).1
        (ntSplit (c1 :: ':' :: '\\' :: List.intercalate ['\\'] cs)).2
      = c1 :: ':' :: '\\' :: List.intercalate ['\\'] cs := by
  have hsd := ntSplitdrive_letter c1 ('\\' :: List.intercalate ['\\'] cs) hc
  refine ⟨hsd, ?_⟩
  rcases List.eq_nil_or_concat cs with rfl | ⟨ds, lastc, rfl⟩
  · -- empty: the bare drive root
    have hsplit : ntSplit [c1, ':', '\\'] = ([c1, ':', '\\'], []) := by
      rw [ntSplit_eq]
      rw [show List.intercalate ['\\'] ([] : List Str) = [] from rfl] at hsd
      rw [hsd]
      dsimp only
      rw [show headPart ['\\'] = ['\\'] from by decide,
        show tailPart ['\\'] = [] from by decide,
        show rstripSeps ['\\'] = [] from by decide, if_pos rfl]
      rfl
    rw [show List.intercalate ['\\'] ([] : List Str) = [] from rfl, hsplit]
    rw [ntJoin_drive_root_rel c1 [] hc rfl (fun c hc => by cases hc)]
    rfl
  · rw [List.concat_eq_append] at *
    have hlmem : lastc ∈ ds ++ [lastc] :=
      List.mem_append.mpr (Or.inr (List.mem_singleton.mpr rfl))
    have hlg := hgood lastc hlmem
    have hlsf : ∀ ch ∈ lastc, isSep ch = false := hsepf lastc hlmem
    have hlcol : ':' ∉ lastc := hcolf lastc hlmem
    have hlhead : ∀ c, lastc.head? = some c → isSep c = false :=
      fun c hc => hlsf c (List.mem_of_mem_head? hc)
    have hld : ntSplitdrive lastc = ([], lastc) :=
      ntSplitdrive_no_drive lastc hlcol hlhead
    rcases List.eq_nil_or_concat ds with rfl | ⟨ds2, d2, rfl⟩
    · -- single component
      have hJ : List.intercalate ['\\'] ([] ++ [lastc]) = lastc := by
        rw [List.nil_append, intercalate_single]
      rw [hJ] at hsd ⊢
      have hsplit : ntSplit (c1 :: ':' :: '\\' :: lastc)
          = ([c1, ':', '\\'], lastc) := by
        rw [ntSplit_eq, hsd]
        dsimp only
        have htp := tailPart_append [] '\\' lastc (by decide) hlsf
        simp only [List.nil_append] at htp
        rw [htp.1, htp.2]
        rw [show rstripSeps ['\\'] = [] from by decide, if_pos rfl]
        rfl
      rw [hsplit]
      exact ntJoin_drive_root_rel c1 lastc hc hld hlhead
    · -- two or more components
      rw [List.concat_eq_append] at *
      set ds3 : List Str := ds2 ++ [d2] with hds3
      have hds3ne : ds3 ≠ [] := by
        rw [hds3]
        simp
      have hJ : List.intercalate ['\\'] (ds3 ++ [lastc])
          = List.intercalate ['\\'] ds3 ++ '\\' :: lastc := by
        rw [intercalate_concat, if_neg hds3ne]
        simp
      obtain ⟨a3, c3, hJds, hc3⟩ := intercalate_last ds3 hds3ne
        (fun x hx => (hgood x (List.mem_append.mpr (Or.inl hx))).1)
        (fun x hx => hsepf x (List.mem_append.mpr (Or.inl hx)))
      have hlast : ('\\' :: List.intercalate ['\\'] ds3).getLast? = some c3 := by
        rw [hJds, show '\\' :: (a3 ++ [c3]) = ('\\' :: a3) ++ [c3] from rfl]
        exact List.getLast?_concat _
      have hrstr : rstripSeps ('\\' :: List.intercalate ['\\'] ds3)
          = '\\' :: List.intercalate ['\\'] ds3 := by
        rw [hJds, show '\\' :: (a3 ++ [c3]) = ('\\' :: a3) ++ [c3] from rfl]
        exact rstripSeps_last_not_sep _ c3 hc3
      have hsplit : ntSplit (c1 :: ':' :: '\\' :: List.intercalate ['\\'] (ds3 ++ [lastc]))
          = (c1 :: ':' :: '\\' :: List.intercalate ['\\'] ds3, lastc) := by
        rw [hJ]
        rw [show c1 :: ':' :: '\\' :: (List.intercalate ['\\'] ds3 ++ '\\' :: lastc)
            = c1 :: ':' :: (('\\' :: List.intercalate ['\\'] ds3) ++ '\\' :: lastc) from by simp]
        rw [ntSplit_eq, ntSplitdrive_letter c1 _ hc]
        dsimp only
        have htp := tailPart_append ('\\' :: List.intercalate ['\\'] ds3) '\\' lastc
          (by decide) hlsf
        rw [htp.1, htp.2, rstripSeps_append_sep _ '\\' (by decide), hrstr]
        rw [if_neg (by simp)]
        simp
      rw [hsplit]
      have hhd : ntSplitdrive (c1 :: ':' :: '\\' :: List.intercalate ['\\'] ds3)
          = ([c1, ':'], '\\' :: List.intercalate ['\\'] ds3) :=
        ntSplitdrive_letter c1 _ hc
      rw [ntJoin_rel _ _ hld hlhead (Or.inr (by rw [hhd]; rfl))]
      rw [hhd]
      dsimp only
      have hrel : relAppend ('\\' :: List.intercalate ['\\'] ds3) lastc
          = ('\\' :: List.intercalate ['\\'] ds3) ++ '\\' :: lastc := by
        unfold relAppend
        rw [hlast]
        dsimp only
        rw [if_neg (by rw [hc3]; exact Bool.false_ne_true)]
      rw [hrel, hJ]
      simp

/-- `Media._format_paths` without a volume on a driveless path is a plain
`ntpath.split` (the abspath branch is skipped). -/
lemma format_paths_no_drive (cwd x : Str) (hsd : ntSplitdrive x = ([], x)) :
    Media.format_paths cwd x none = ntSplit x := by
  unfold Media.format_paths
  rw [hsd]
  dsimp only
  rw [if_pos rfl]

/-- `Media._format_paths` without a volume on a letter-drive path: the drive
is rooted, the tail is lstripped, and the absolute path is normalised before
splitting. -/
lemma format_paths_drive_letter (cwd : Str) (c1 : Char) (rest : Str)
    (hc : isSep c1 = false) (hslash : '/' ∉ rest) (hcol : ':' ∉ rest) :
    Media.format_paths cwd (c1 :: ':' :: rest) none
      = ntSplit (c1 :: ':' :: '\\' ::
          List.intercalate ['\\']
            (normComps true [] (splitOnChar '\\' (lstripBackslash rest)))) := by
  have hsd := ntSplitdrive_letter c1 rest hc
  have hsub := lstripBackslash_subset rest
  have hs_slash : '/' ∉ lstripBackslash rest := fun h => hslash (hsub '/' h)
  have hs_col : ':' ∉ lstripBackslash rest := fun h => hcol (hsub ':' h)
  have hs_nb : ∀ c, (lstripBackslash rest).head? = some c → ¬(c = '\\') :=
    fun c hch => lstripBackslash_head rest c hch
  have hs_head : ∀ c, (lstripBackslash rest).head? = some c → isSep c = false := by
    intro c hch
    have h1 := hs_nb c hch
    have h2 : ¬(c = '/') := fun h => hs_slash (h ▸ List.mem_of_mem_head? hch)
    simp [isSep, h1, h2]
  have hs_drive : ntSplitdrive (lstripBackslash rest) = ([], lstripBackslash rest) :=
    ntSplitdrive_no_drive _ hs_col hs_head
  have habs : ntIsAbs (c1 :: ':' :: '\\' :: lstripBackslash rest) = true := by
    rw [ntIsAbs, ntSplitdrive_letter c1 ('\\' :: lstripBackslash rest) hc]
    rfl
  unfold Media.format_paths
  rw [hsd]
  dsimp only
  rw [if_neg (by simp), if_neg (by simp)]
  rw [ntJoin_drive_backslash c1 hc]
  rw [ntJoin_drive_root_rel c1 _ hc hs_drive hs_head]
  rw [show ([c1, ':', '\\'] : Str) ++ lstripBackslash rest
      = c1 :: ':' :: '\\' :: lstripBackslash rest from rfl]
  rw [ntAbspath, if_pos habs]
  rw [ntNormpath_drive_rooted c1 (lstripBackslash rest) hc hs_slash hs_nb]

/-- The path shapes of the amended C10 claim: either driveless (no colon,
non-separator head) or a letter drive followed by a slash-free colon-free
tail. -/
def SimplePath (p : Str) : Prop :=
  (':' ∉ p ∧ ∀ c, p.head? = some c → isSep c = false)
  ∨ (∃ c1 rest, p = c1 :: ':' :: rest ∧ isSep c1 = false ∧ '/' ∉ rest ∧ ':' ∉ rest)

/-- Re-running `Media._format_paths` on the joined source path of a file
medium reproduces the original directory/name split. -/
lemma format_paths_file_stable (cwd ifp : Str) (hok : SimplePath ifp) :
    Media.format_paths cwd
        (ntJoin (Media.format_paths cwd ifp none).1 (Media.format_paths cwd ifp none).2) none
      = Media.format_paths cwd ifp none := by
  rcases hok with ⟨hcol, hhead⟩ | ⟨c1, rest, rfl, hc, hslash, hcol⟩
  · have hsd := ntSplitdrive_no_drive ifp hcol hhead
    rw [format_paths_no_drive cwd ifp hsd]
    obtain ⟨h1, h2, h3, h4⟩ := file_roundtrip_driveless ifp hcol hhead
    rw [format_paths_no_drive cwd _ h1, h3]
  · rw [format_paths_drive_letter cwd c1 rest hc hslash hcol]
    have hsub := lstripBackslash_subset rest
    have hchars : ∀ x ∈ normComps true [] (splitOnChar '\\' (lstripBackslash rest)),
        ∀ ch ∈ x, ¬(ch = '\\') ∧ ch ∈ rest := by
      intro x hx ch hch
      have hx2 : x ∈ splitOnChar '\\' (lstripBackslash rest) := by
        rcases normComps_mem true [] (splitOnChar '\\' (lstripBackslash rest)) x hx with h | h
        · cases h
        · exact h
      have h2 := splitOnChar_mem '\\' (lstripBackslash rest) x hx2
      exact ⟨h2.1 ch hch, hsub ch (h2.2 ch hch)⟩
    have hgood : ∀ x ∈ normComps true [] (splitOnChar '\\' (lstripBackslash rest)), goodComp x :=
      normComps_good [] _ (fun x hx => absurd hx (List.not_mem_nil x))
    generalize hg : normComps true [] (splitOnChar '\\' (lstripBackslash rest)) = cs
      at hchars hgood ⊢
    have hsepf : ∀ x ∈ cs, ∀ ch ∈ x, isSep ch = false := by
      intro x hx ch hch
      obtain ⟨h1, h2⟩ := hchars x hx ch hch
      have h3 : ¬(ch = '/') := fun h => hslash (h ▸ h2)
      simp [isSep, h1, h3]
    have hcolf : ∀ x ∈ cs, ':' ∉ x := by
      intro x hx h
      exact hcol ((hchars x hx ':' h).2)
    obtain ⟨hsd2, hjoin⟩ := drive_norm_split_join c1 cs hc hgood hsepf hcolf
    rw [hjoin]
    have hJchars : ∀ ch ∈ List.intercalate ['\\'] cs, ch = '\\' ∨ (¬(ch = '\\') ∧ ch ∈ rest) := by
      intro ch h
      rcases intercalate_mem ['\\'] cs ch h with h | ⟨x, hx, hch⟩
      · exact Or.inl (List.mem_singleton.mp h)
      · exact Or.inr (hchars x hx ch hch)
    have hslash2 : '/' ∉ ('\\' :: List.intercalate ['\\'] cs) := by
      intro h
      rcases List.mem_cons.mp h with h | h
      · cases h
      rcases hJchars '/' h with h | ⟨_, h2⟩
      · cases h
      · exact hslash h2
    have hcol2 : ':' ∉ ('\\' :: List.intercalate ['\\'] cs) := by
      intro h
      rcases List.mem_cons.mp h with h | h
      · cases h
      rcases hJchars ':' h with h | ⟨_, h2⟩
      · cases h
      · exact hcol h2
    rw [show (c1 :: ':' :: '\\' :: List.intercalate ['\\'] cs)
        = c1 :: ':' :: ('\\' :: List.intercalate ['\\'] cs) from rfl]
    rw [format_paths_drive_letter cwd c1 ('\\' :: List.intercalate ['\\'] cs) hc hslash2 hcol2]
    rw [lstripBackslash_cons]
    cases cs with
    | nil => rfl
    | cons c0 t =>
      have hc0 : c0 ∈ c0 :: t := List.mem_cons_self c0 t
      have hc0ne : c0 ≠ [] := (hgood c0 hc0).1
      have hJhead : (List.intercalate ['\\'] (c0 :: t)).head? = c0.head? :=
        intercalate_head c0 t hc0ne
      have hJl : lstripBackslash (List.intercalate ['\\'] (c0 :: t))
          = List.intercalate ['\\'] (c0 :: t) := by
        refine lstripBackslash_of_head _ ?_
        intro c hch
        rw [hJhead] at hch
        exact (hchars c0 hc0 c (List.mem_of_mem_head? hch)).1
      have hsplitJ : splitOnChar '\\' (List.intercalate ['\\'] (c0 :: t)) = c0 :: t := by
        refine splitOnChar_intercalate '\\' (c0 :: t) (by simp) ?_
        intro x hx h
        exact (hchars x hx '\\' h).1 rfl
      rw [hJl, hsplitJ, normComps_id true [] (c0 :: t) hgood, List.reverse_nil,
        List.nil_append]

/-- `Media._format_paths` with a nonempty volume returns the rooted drive
and the volume, and is stable when re-run on that drive. -/
lemma format_paths_drive_stable (cwd ifp v : Str) (hv : v ≠ []) (hok : SimplePath ifp) :
    ∃ dl, Media.format_paths cwd ifp (some v) = (dl, v) ∧
      Media.format_paths cwd dl (some v) = (dl, v) := by
  rcases hok with ⟨hcol, hhead⟩ | ⟨c1, rest, rfl, hc, hslash, hcol⟩
  · refine ⟨[], ?_, ?_⟩
    · unfold Media.format_paths
      rw [ntSplitdrive_no_drive ifp hcol hhead]
      dsimp only
      rw [if_neg hv]
      simp
    · unfold Media.format_paths
      rw [show ntSplitdrive [] = ([], []) from rfl]
      dsimp only
      rw [if_neg hv]
      simp
  · refine ⟨[c1, ':', '\\'], ?_, ?_⟩
    · unfold Media.format_paths
      rw [ntSplitdrive_letter c1 rest hc]
      dsimp only
      rw [if_neg hv, if_neg (show ¬([c1, ':'] = ([] : Str)) from by simp),
        ntJoin_drive_backslash c1 hc]
    · unfold Media.format_paths
      rw [show ([c1, ':', '\\'] : Str) = c1 :: ':' :: ['\\'] from rfl,
        ntSplitdrive_letter c1 ['\\'] hc]
      dsimp only
      rw [if_neg hv, if_neg (show ¬([c1, ':'] = ([] : Str)) from by simp),
        ntJoin_drive_backslash c1 hc]

/-- The code point of a decimal digit character. -/
lemma charDigit_toNat (d : Nat) (hd : d < 10) : (Char.ofNat (48 + d)).toNat = 48 + d := by
  interval_cases d <;> decide

/-- Decimal digit characters satisfy `isDigit`. -/
lemma charDigit_isDigit (d : Nat) (hd : d < 10) : (Char.ofNat (48 + d)).isDigit = true := by
  interval_cases d <;> decide

/-- The string-digit fold over reversed base-10 digits computes
`Nat.ofDigits`. -/
lemma digitsVal_aux (ds : List Nat) (h : ∀ d ∈ ds, d < 10) (a : Nat) :
    List.foldl (fun acc c => acc * 10 + (c.toNat - 48)) a
        ((ds.reverse).map (fun d => Char.ofNat (48 + d)))
      = a * 10 ^ ds.length + Nat.ofDigits 10 ds := by
  induction ds generalizing a with
  | nil => simp
  | cons d ds ih =>
    have hd : d < 10 := h d (List.mem_cons_self d ds)
    have hds : ∀ x ∈ ds, x < 10 := fun x hx => h x (List.mem_cons_of_mem d hx)
    rw [List.reverse_cons, List.map_append, List.foldl_append, ih hds a]
    rw [List.map_singleton, List.foldl_cons, List.foldl_nil]
    rw [charDigit_toNat d hd, Nat.ofDigits_cons, List.length_cons]
    have h48 : 48 + d - 48 = d := by omega
    rw [h48, pow_succ]
    ring

/-- `str(n)` is nonempty. -/
lemma natToChars_ne_nil (n : Nat) : natToChars n ≠ [] := by
  unfold natToChars
  split
  · simp
  · rename_i hn
    have hd : Nat.digits 10 n ≠ [] := Nat.digits_ne_nil_iff_ne_zero.mpr hn
    simp [hd]

/-- `str(n)` consists of decimal digits. -/
lemma natToChars_digits (n : Nat) : ∀ c ∈ natToChars n, c.isDigit = true := by
  unfold natToChars
  split
  · intro c hc
    rcases List.mem_singleton.mp hc with rfl
    decide
  · intro c hc
    rw [List.mem_map] at hc
    obtain ⟨d, hd, rfl⟩ := hc
    have : d < 10 := Nat.digits_lt_base (by norm_num) (List.mem_reverse.mp hd)
    exact charDigit_isDigit d this

/-- `int(str(n)) = n` for naturals. -/
lemma parseDigits_natToChars (n : Nat) : parseDigits (natToChars n) = some n := by
  rw [parseDigits, if_pos ⟨natToChars_ne_nil n, List.all_eq_true.mpr (natToChars_digits n)⟩]
  congr 1
  unfold natToChars digitsVal
  split
  · rename_i hn
    rw [hn]
    decide
  · rw [digitsVal_aux (Nat.digits 10 n)
      (fun d hd => Nat.digits_lt_base (by norm_num) hd) 0]
    rw [Nat.ofDigits_digits]
    ring

/-- `int(s)` without a leading minus parses the digits positively. -/
lemma pyInt_not_neg (s : Str) (h : s.head? ≠ some '-') :
    pyInt s = (parseDigits s).map (fun n => (n : Int)) := by
  unfold pyInt
  split
  · exact absurd rfl h
  · rfl

/-- `int(str(n))` round trip into `Int`. -/
lemma pyInt_natToChars (n : Nat) : pyInt (natToChars n) = some (n : Int) := by
  have hhead : (natToChars n).head? ≠ some '-' := by
    intro hh
    have := natToChars_digits n '-' (List.mem_of_mem_head? hh)
    cases this
  rw [pyInt_not_neg _ hhead, parseDigits_natToChars]
  rfl

/-- `int(str(z)) = z`: the serializer and parser of Python ints are inverse. -/
lemma pyInt_intToChars (z : Int) : pyInt (intToChars z) = some z := by
  unfold intToChars
  split
  · rename_i hz
    rw [show pyInt ('-' :: natToChars z.natAbs)
        = (parseDigits (natToChars z.natAbs)).map (fun n => -(n : Int)) from rfl]
    rw [parseDigits_natToChars]
    simp [abs_of_neg hz]
  · rename_i hz
    rw [pyInt_natToChars]
    have : ((z.toNat : Nat) : Int) = z := by omega
    rw [this]

/-- `str(z)` is never the text `'None'`. -/
lemma intToChars_ne_none (z : Int) : intToChars z ≠ str "None" := by
  unfold intToChars
  split
  · intro h
    have h2 := congrArg List.head? h
    rw [List.head?_cons, show List.head? (str "None") = some 'N' from rfl] at h2
    exact absurd (Option.some.inj h2) (by decide)
  · intro h
    cases hn : natToChars z.toNat with
    | nil => exact natToChars_ne_nil z.toNat hn
    | cons c cs =>
      have hdig := natToChars_digits z.toNat c (hn ▸ List.mem_cons_self c cs)
      rw [hn] at h
      have h2 := congrArg List.head? h
      rw [List.head?_cons, show List.head? (str "None") = some 'N' from rfl] at h2
      rw [Option.some.inj h2] at hdig
      cases hdig

/-- `str(n)` contains no `';'`. -/
lemma semi_not_mem_natToChars (n : Nat) : ';' ∉ natToChars n := by
  intro h
  have := natToChars_digits n ';' h
  cases this

/-- The serialized year/season field contains no `';'`. -/
lemma semi_not_mem_optIntStr (o : Option Int) : ';' ∉ optIntStr o := by
  cases o with
  | none => decide
  | some z =>
    rw [optIntStr]
    unfold intToChars
    split
    · intro h
      rcases List.mem_cons.mp h with h | h
      · cases h
      · exact semi_not_mem_natToChars _ h
    · exact semi_not_mem_natToChars _

/-- `convert_media`'s year/season parse inverts `adapt_media`'s `str()`. -/
lemma optIntStr_parse (o : Option Int) :
    (if optIntStr o = str "None" then some none else (pyInt (optIntStr o)).map some)
      = some o := by
  cases o with
  | none => rw [show optIntStr none = str "None" from rfl, if_pos rfl]
  | some z =>
    rw [show optIntStr (some z) = intToChars z from rfl, if_neg (intToChars_ne_none z),
      pyInt_intToChars]
    rfl

/-- Splitting an `adapt_media` serialization on `';'` recovers exactly the
seven fields when none of them contains `';'`. -/
lemma splitOnChar_adapt (m : Media)
    (h1 : ';' ∉ m.get_source_path) (h2 : ';' ∉ m.handbrake_path)
    (h3 : ';' ∉ m.source_type) (h4 : ';' ∉ m.media_type)
    (h5 : ';' ∉ (if m.source_type = str "drive" then m.file_name else str "None")) :
    splitOnChar ';' (EncodeDatabase.adapt_media m)
      = [m.get_source_path, m.handbrake_path, m.source_type, m.media_type,
         (if m.source_type = str "drive" then m.file_name else str "None"),
         optIntStr m.year, optIntStr m.season] := by
  unfold EncodeDatabase.adapt_media
  simp only [List.append_assoc, List.cons_append]
  rw [splitOnChar_append ';' _ _ h1, splitOnChar_append ';' _ _ h2,
    splitOnChar_append ';' _ _ h3, splitOnChar_append ';' _ _ h4,
    splitOnChar_append ';' _ _ h5,
    splitOnChar_append ';' _ _ (semi_not_mem_optIntStr m.year),
    splitOnChar_no_sep ';' _ (semi_not_mem_optIntStr m.season)]

/-- `convert_media` after `adapt_media`: the seven fields are split back,
the `Media` is rebuilt by `__init__`, and year/season are re-parsed. -/
lemma convert_adapt (cwd : Str) (m : Media)
    (h1 : ';' ∉ m.get_source_path) (h2 : ';' ∉ m.handbrake_path)
    (h3 : ';' ∉ m.source_type) (h4 : ';' ∉ m.media_type)
    (h5 : ';' ∉ (if m.source_type = str "drive" then m.file_name else str "None"))
    (m1 : Media)
    (hinit2 : Media.init cwd m.get_source_path m.handbrake_path m.source_type m.media_type
        (if (if m.source_type = str "drive" then m.file_name else str "None") = str "None"
         then none
         else some (if m.source_type = str "drive" then m.file_name else str "None"))
      = some m1) :
    EncodeDatabase.convert_media cwd (EncodeDatabase.adapt_media m)
      = some { m1 with year := m.year, season := m.season } := by
  unfold EncodeDatabase.convert_media
  rw [splitOnChar_adapt m h1 h2 h3 h4 h5]
  dsimp only
  rw [hinit2]
  dsimp only
  rw [optIntStr_parse m.year, optIntStr_parse m.season]

/-- `Media.__init__` on the joined source path of a file medium rebuilds the
same directory/name fields. -/
lemma init_file_roundtrip (cwd ifp hb mt : Str)
    (hmt : mt = str "movie" ∨ mt = str "series") (hok : SimplePath ifp) :
    Media.init cwd
        (ntJoin (Media.format_paths cwd ifp none).1 (Media.format_paths cwd ifp none).2)
        hb (str "file") mt none
      = some { handbrake_path := hb, source_type := str "file", media_type := mt,
               image_path := (Media.format_paths cwd ifp none).1,
               file_name := (Media.format_paths cwd ifp none).2,
               media_name := Media.format_media_name (Media.format_paths cwd ifp none).2,
               year := none, season := none } := by
  unfold Media.init
  rw [if_pos ⟨Or.inl rfl, hmt⟩]
  dsimp only
  rw [format_paths_file_stable cwd ifp hok]

/-- `Media.__init__` on a stable drive letter with a volume rebuilds the
same fields. -/
lemma init_drive_roundtrip (cwd hb mt : Str)
    (hmt : mt = str "movie" ∨ mt = str "series") (dl v : Str)
    (hfp2 : Media.format_paths cwd dl (some v) = (dl, v)) :
    Media.init cwd dl hb (str "drive") mt (some v)
      = some { handbrake_path := hb, source_type := str "drive", media_type := mt,
               image_path := dl, file_name := v,
               media_name := Media.format_media_name v, year := none, season := none } := by
  unfold Media.init
  rw [if_pos ⟨Or.inr rfl, hmt⟩]
  dsimp only
  rw [hfp2]

/-- The serialization round trip is the identity on file media over simple
paths. -/
lemma roundtrip_file (cwd ifp hb mt : Str) (y sn : Option Int)
    (hmt : mt = str "movie" ∨ mt = str "series") (hok : SimplePath ifp)
    (hsemi_src : ';' ∉ ntJoin (Media.format_paths cwd ifp none).1
        (Media.format_paths cwd ifp none).2)
    (hsemi_hb : ';' ∉ hb) :
    EncodeDatabase.convert_media cwd (EncodeDatabase.adapt_media
        { handbrake_path := hb, source_type := str "file", media_type := mt,
          image_path := (Media.format_paths cwd ifp none).1,
          file_name := (Media.format_paths cwd ifp none).2,
          media_name := Media.format_media_name (Media.format_paths cwd ifp none).2,
          year := y, season := sn })
      = some { handbrake_path := hb, source_type := str "file", media_type := mt,
               image_path := (Media.format_paths cwd ifp none).1,
               file_name := (Media.format_paths cwd ifp none).2,
               media_name := Media.format_media_name (Media.format_paths cwd ifp none).2,
               year := y, season := sn } := by
  have hsrc_eq : Media.get_source_path
      { handbrake_path := hb, source_type := str "file", media_type := mt,
        image_path := (Media.format_paths cwd ifp none).1,
        file_name := (Media.format_paths cwd ifp none).2,
        media_name := Media.format_media_name (Media.format_paths cwd ifp none).2,
        year := y, season := sn }
      = ntJoin (Media.format_paths cwd ifp none).1 (Media.format_paths cwd ifp none).2 := by
    unfold Media.get_source_path
    dsimp only
    rw [if_neg (show ¬(str "file" = str "drive") from by decide)]
  have hvol_eq : (if
      ({ handbrake_path := hb, source_type := str "file", media_type := mt,
         image_path := (Media.format_paths cwd ifp none).1,
         file_name := (Media.format_paths cwd ifp none).2,
         media_name := Media.format_media_name (Media.format_paths cwd ifp none).2,
         year := y, season := sn } : Media).source_type = str "drive"
      then ({ handbrake_path := hb, source_type := str "file", media_type := mt,
              image_path := (Media.format_paths cwd ifp none).1,
              file_name := (Media.format_paths cwd ifp none).2,
              media_name := Media.format_media_name (Media.format_paths cwd ifp none).2,
              year := y, season := sn } : Media).file_name
      else str "None") = str "None" := by
    dsimp only
    rw [if_neg (show ¬(str "file" = str "drive") from by decide)]
  have h := convert_adapt cwd
    { handbrake_path := hb, source_type := str "file", media_type := mt,
      image_path := (Media.format_paths cwd ifp none).1,
      file_name := (Media.format_paths cwd ifp none).2,
      media_name := Media.format_media_name (Media.format_paths cwd ifp none).2,
      year := y, season := sn }
    (by rw [hsrc_eq]; exact hsemi_src) hsemi_hb
    (by dsimp only; decide)
    (by dsimp only; rcases hmt with rfl | rfl <;> decide)
    (by rw [hvol_eq]; decide)
    { handbrake_path := hb, source_type := str "file", media_type := mt,
      image_path := (Media.format_paths cwd ifp none).1,
      file_name := (Media.format_paths cwd ifp none).2,
      media_name := Media.format_media_name (Media.format_paths cwd ifp none).2,
      year := none, season := none }
    (by
      dsimp only
      rw [hsrc_eq, hvol_eq, if_pos rfl]
      exact init_file_roundtrip cwd ifp hb mt hmt hok)
  dsimp only at h
  exact h

/-- The serialization round trip is the identity on drive media with a
usable volume name. -/
lemma roundtrip_drive (cwd dl v hb mt : Str) (y sn : Option Int)
    (hmt : mt = str "movie" ∨ mt = str "series")
    (hfp2 : Media.format_paths cwd dl (some v) = (dl, v))
    (hvN : v ≠ str "None") (hsemi_dl : ';' ∉ dl) (hsemi_hb : ';' ∉ hb)
    (hsemi_v : ';' ∉ v) :
    EncodeDatabase.convert_media cwd (EncodeDatabase.adapt_media
        { handbrake_path := hb, source_type := str "drive", media_type := mt,
          image_path := dl, file_name := v, media_name := Media.format_media_name v,
          year := y, season := sn })
      = some { handbrake_path := hb, source_type := str "drive", media_type := mt,
               image_path := dl, file_name := v, media_name := Media.format_media_name v,
               year := y, season := sn } := by
  have hsrc_eq : Media.get_source_path
      { handbrake_path := hb, source_type := str "drive", media_type := mt,
        image_path := dl, file_name := v, media_name := Media.format_media_name v,
        year := y, season := sn } = dl := by
    unfold Media.get_source_path
    dsimp only
    rw [if_pos rfl]
  have hvol_eq : (if
      ({ handbrake_path := hb, source_type := str "drive", media_type := mt,
         image_path := dl, file_name := v, media_name := Media.format_media_name v,
         year := y, season := sn } : Media).source_type = str "drive"
      then ({ handbrake_path := hb, source_type := str "drive", media_type := mt,
              image_path := dl, file_name := v, media_name := Media.format_media_name v,
              year := y, season := sn } : Media).file_name
      else str "None") = v := by
    dsimp only
    rw [if_pos rfl]
  have h := convert_adapt cwd
    { handbrake_path := hb, source_type := str "drive", media_type := mt,
      image_path := dl, file_name := v, media_name := Media.format_media_name v,
      year := y, season := sn }
    (by rw [hsrc_eq]; exact hsemi_dl) hsemi_hb
    (by dsimp only; decide)
    (by dsimp only; rcases hmt with rfl | rfl <;> decide)
    (by rw [hvol_eq]; exact hsemi_v)
    { handbrake_path := hb, source_type := str "drive", media_type := mt,
      image_path := dl, file_name := v, media_name := Media.format_media_name v,
      year := none, season := none }
    (by
      dsimp only
      rw [hsrc_eq, hvol_eq, if_neg hvN]
      exact init_drive_roundtrip cwd hb mt hmt dl v hfp2)
  dsimp only at h
  exact h

/-- C10 (amended): for a `Media` built by `Media.__init__` over a simple
path (driveless, or letter drive with slash-free colon-free tail), with a
drive medium carrying a nonempty volume name other than `'None'` and a file
medium carrying none, and with `';'`-free source and HandBrake paths,
deserializing the store serialization (`convert_media` after `adapt_media`)
returns exactly the same `Media` - in particular the same source path,
source type, media type, year and season - for every year/season the GUI may
have set. -/
theorem C10_round_trip (cwd ifp hb st mt : Str) (vol : Option Str) (y sn : Option Int)
    (m0 : Media) (hinit : Media.init cwd ifp hb st mt vol = some m0)
    (hok : SimplePath ifp) (hsemi_src : ';' ∉ Media.get_source_path m0)
    (hsemi_hb : ';' ∉ hb)
    (hdrive : st = str "drive" → ∃ v, vol = some v ∧ v ≠ [] ∧ v ≠ str "None" ∧ ';' ∉ v)
    (hfile : st = str "file" → vol = none) :
    EncodeDatabase.convert_media cwd
        (EncodeDatabase.adapt_media { m0 with year := y, season := sn })
      = some { m0 with year := y, season := sn } := by
  unfold Media.init at hinit
  split at hinit
  · rename_i hcond
    obtain ⟨hst, hmt⟩ := hcond
    have hm0 := (Option.some.inj hinit).symm
    rcases hst with hst | hst
    · subst hst
      have hvn := hfile rfl
      subst hvn
      rw [hm0] at hsemi_src ⊢
      unfold Media.get_source_path at hsemi_src
      dsimp only at hsemi_src ⊢
      rw [if_neg (show ¬(str "file" = str "drive") from by decide)] at hsemi_src
      exact roundtrip_file cwd ifp hb mt y sn hmt hok hsemi_src hsemi_hb
    · subst hst
      obtain ⟨v, hveq, hvne, hvN, hsemi_v⟩ := hdrive rfl
      subst hveq
      obtain ⟨dl, hfp1, hfp2⟩ := format_paths_drive_stable cwd ifp v hvne hok
      rw [hm0] at hsemi_src ⊢
      unfold Media.get_source_path at hsemi_src
      dsimp only at hsemi_src ⊢
      rw [if_pos rfl] at hsemi_src
      rw [hfp1] at hsemi_src ⊢
      dsimp only at hsemi_src ⊢
      exact roundtrip_drive cwd dl v hb mt y sn hmt hfp2 hvN hsemi_src hsemi_hb hsemi_v
  · cases hinit

/-- The `Media` that `Media.__init__` builds for `C:\dir\file.iso` as a
drive source whose WMI `VolumeName` is `None`. -/
def c10DriveMedia : Media :=
  { handbrake_path := str "hb", source_type := str "drive", media_type := str "movie",
    image_path := str "C:\\dir", file_name := str "file.iso",
    media_name := str "File", year := none, season := none }

/-- The `Media` that `Media.__init__` builds for `C:\dir\file.iso` as a file
source. -/
def c10FileMedia : Media :=
  { handbrake_path := str "hb", source_type := str "file", media_type := str "movie",
    image_path := str "C:\\dir", file_name := str "file.iso",
    media_name := str "File", year := none, season := none }

/-- `C:\dir\file.iso` is a simple letter-drive path. -/
lemma c10_simple_path : SimplePath (str "C:\\dir\\file.iso") :=
  Or.inr ⟨'C', str "\\dir\\file.iso", by decide, by decide, by decide, by decide⟩

/-- C10 (counterexample to the original claim): the drive medium that
`Media.__init__` builds for `C:\dir\file.iso` with no volume name has every
serialized field `';'`-free, yet `convert_media` after `adapt_media` returns
a `Media` with source path `C:\` instead of `C:\dir` - `adapt_media` stores
`get_source_path()`, which drops the file name for drive media, and the
rebuilt drive medium collapses to the bare drive root. -/
theorem C10_counterexample :
    ∃ m : Media,
      Media.init [] (str "C:\\dir\\file.iso") (str "hb") (str "drive") (str "movie") none
        = some m ∧
      ';' ∉ m.get_source_path ∧ ';' ∉ m.handbrake_path ∧ ';' ∉ m.source_type ∧
      ';' ∉ m.media_type ∧ ';' ∉ m.file_name ∧
      ';' ∉ optIntStr m.year ∧ ';' ∉ optIntStr m.season ∧
      (EncodeDatabase.convert_media [] (EncodeDatabase.adapt_media m)).map
          Media.get_source_path
        ≠ some m.get_source_path := by
  refine ⟨c10DriveMedia, by decide, by decide, by decide, by decide, by decide, by decide,
    by decide, by decide, by decide⟩

/-- C10 witness: the amended round trip evaluated on the file medium for
`C:\dir\file.iso` with year 1999. -/
theorem C10_round_trip_witness :
    Media.init [] (str "C:\\dir\\file.iso") (str "hb") (str "file") (str "movie") none
        = some c10FileMedia ∧
    SimplePath (str "C:\\dir\\file.iso") ∧
    EncodeDatabase.convert_media []
        (EncodeDatabase.adapt_media { c10FileMedia with year := some 1999, season := none })
      = some { c10FileMedia with year := some 1999, season := none } :=
  ⟨by decide, c10_simple_path,
    C10_round_trip [] (str "C:\\dir\\file.iso") (str "hb") (str "file") (str "movie")
      none (some 1999) none c10FileMedia (by decide) c10_simple_path (by decide) (by decide)
      (fun h => absurd h (by decide)) (fun _ => rfl)⟩

end Handlebar
